import Mathlib

/-!
# Verification of the window-operator and filter-combiner cores

Shallow embedding of the core algorithms of
`src/execution/operator/aggregate/physical_window.cpp` and
`src/optimizer/filter_combiner.cpp`, together with theorems settling the
frozen claims about them.

Conventions of the embedding:
* C++ `size_t`/`idx_t` indices become `Nat`; `ssize_t` quantities become `Int`
  (with the signed-to-unsigned conversion of a comparison made explicit as a
  reduction modulo `2^64` where the source mixes signedness).
* `duckdb::Value` (`value.cpp` is not part of the sources under scrutiny) is
  modelled from the spec: a tagged scalar with a NULL flag; the total order on
  non-NULL values is carried by an integer key `ival`, NULLs are incomparable
  (spec section 3: "NULLs compare as incomparable"), and `!=` is the negation
  of `==`.  String payloads (`sval`, a byte list) are carried for the LIKE
  rewrite, which only mutates bytes and never orders strings.
* fallible code returns `Option`/`Except`; a C++ `D_ASSERT` whose condition
  cannot be discharged, or an `EvaluateScalar` call on a non-foldable
  expression, is modelled as the undefined result `none`.
-/

namespace DuckCore

/-- Logical type tag of a `duckdb::Value` (only the distinctions the embedded
code inspects are kept: the five integer types of the `IN` rewrite, VARCHAR,
BOOLEAN, and everything else). -/
inductive VT where
  | boolT
  | tinyintT
  | smallintT
  | integerT
  | bigintT
  | hugeintT
  | varcharT
  | otherT
deriving DecidableEq, Repr

/-- Whether a type tag is one of the integer types accepted by the
`IN`-to-range rewrite in `GenerateTableScanFilters`. -/
def VT.isIntegerTy : VT → Bool
  | .bigintT | .integerT | .smallintT | .tinyintT | .hugeintT => true
  | _ => false

/-- `TypeIsNumeric(...) || ... == PhysicalType::VARCHAR` test of
`GenerateTableScanFilters` (modelled from the spec: "the constant type is
numeric or string"). -/
def VT.isNumericOrVarchar : VT → Bool
  | .boolT | .otherT => false
  | _ => true

/-- Modelled from the spec: `duckdb::Value`, a tagged scalar with a NULL flag.
The order on non-NULL values is carried by the integer key `ival`; `sval`
carries the bytes of a VARCHAR value (used only by the LIKE/`prefix` rewrites,
which manipulate bytes and never compare strings). -/
structure SVal where
  vtype : VT
  is_null : Bool
  ival : Int
  sval : List Nat
deriving DecidableEq, Repr

/-- A non-NULL integer-keyed value (the `BIGINT` constructor used throughout
the concrete test inputs). -/
def iv (n : Int) : SVal := ⟨.bigintT, false, n, []⟩

/-- The NULL value of a given type. -/
def nullv (t : VT) : SVal := ⟨t, true, 0, []⟩

/-- Modelled from the spec: `Value::operator<`; NULLs are incomparable. -/
def vlt (a b : SVal) : Bool := !a.is_null && !b.is_null && decide (a.ival < b.ival)

/-- Modelled from the spec: `Value::operator<=`; NULLs are incomparable. -/
def vle (a b : SVal) : Bool := !a.is_null && !b.is_null && decide (a.ival ≤ b.ival)

/-- Modelled from the spec: `Value::operator>`. -/
def vgt (a b : SVal) : Bool := vlt b a

/-- Modelled from the spec: `Value::operator>=`. -/
def vge (a b : SVal) : Bool := vle b a

/-- Modelled from the spec: `Value::operator==`; NULL equals nothing. -/
def veq (a b : SVal) : Bool := !a.is_null && !b.is_null && decide (a.ival = b.ival)

/-- Modelled from the spec: `Value::operator!=` as the negation of `==`. -/
def vne (a b : SVal) : Bool := !(veq a b)

/-- The six comparison operators the filter combiner supports
(`ExpressionType::COMPARE_*`). -/
inductive CmpOp where
  | eq
  | neq
  | lt
  | le
  | gt
  | ge
deriving DecidableEq, Repr

/-- Evaluate one comparison operator on two values (NULL-aware, Boolean
result; modelled from the spec's Value comparison semantics). -/
def cmpv : CmpOp → SVal → SVal → Bool
  | .eq, a, b => veq a b
  | .neq, a, b => vne a b
  | .lt, a, b => vlt a b
  | .le, a, b => vle a b
  | .gt, a, b => vgt a b
  | .ge, a, b => vge a b

/-- `FlipComparisionExpression` (modelled from the spec: "flip the comparison
if the scalar is on the left"): mirrors an operator across the comparison. -/
def flipCmp : CmpOp → CmpOp
  | .eq => .eq
  | .neq => .neq
  | .lt => .gt
  | .le => .ge
  | .gt => .lt
  | .ge => .le

/-- The expression shapes the filter combiner inspects
(`BoundColumnRefExpression`, `BoundConstantExpression`,
`BoundComparisonExpression`, `BoundBetweenExpression`,
`BoundFunctionExpression`, `COMPARE_IN` `BoundOperatorExpression`); every
other variant is an opaque leaf `other`. -/
inductive CExpr where
  | colref (cidx : Nat)
  | cst (v : SVal)
  | cmp (op : CmpOp) (l r : CExpr)
  | between (inp lo hi : CExpr) (lower_inclusive upper_inclusive : Bool)
  | func (fname : String) (children : List CExpr)
  | inOp (children : List CExpr)
  | other (tag : Nat)

mutual

/-- Structural `Expression::Equals` on embedded expressions. -/
def cexprEq : CExpr → CExpr → Bool
  | .colref i, .colref j => i = j
  | .cst v, .cst w => v = w
  | .cmp o1 l1 r1, .cmp o2 l2 r2 => o1 = o2 && cexprEq l1 l2 && cexprEq r1 r2
  | .between i1 lo1 hi1 a1 b1, .between i2 lo2 hi2 a2 b2 =>
      cexprEq i1 i2 && cexprEq lo1 lo2 && cexprEq hi1 hi2 && a1 = a2 && b1 = b2
  | .func n1 c1, .func n2 c2 => n1 = n2 && cexprEqList c1 c2
  | .inOp c1, .inOp c2 => cexprEqList c1 c2
  | .other t1, .other t2 => t1 = t2
  | _, _ => false

/-- Pointwise structural equality of child lists. -/
def cexprEqList : List CExpr → List CExpr → Bool
  | [], [] => true
  | a :: as_, b :: bs => cexprEq a b && cexprEqList as_ bs
  | _, _ => false

end

/-- `Expression::IsFoldable` on the embedded shapes: constants are foldable,
column references and opaque leaves are not, and composite shapes are foldable
when all children are.  (Functions are kept non-foldable: the engine would
constant-fold a function of constants before the combiner sees it.) -/
def isFoldable : CExpr → Bool
  | .colref _ => false
  | .cst _ => true
  | .cmp _ l r => isFoldable l && isFoldable r
  | .between i lo hi _ _ => isFoldable i && isFoldable lo && isFoldable hi
  | .func _ _ => false
  | .inOp _ => false
  | .other _ => false

end DuckCore

namespace DuckCore

/-- A pushdown filter record (`duckdb::TableFilter`): constant, comparison
type, column index. -/
structure TableFilter where
  constant : SVal
  comparison_type : CmpOp
  column_index : Nat
deriving DecidableEq, Repr

/-- `COLUMN_IDENTIFIER_ROW_ID` (`(idx_t)-1`). -/
def rowIdSentinel : Nat := 2 ^ 64 - 1

/-- The byte of the `'%'` wildcard. -/
def pctByte : Nat := 37

/-- The byte of the `'_'` wildcard. -/
def usByte : Nat := 95

/-- `Value(1)` of type INTEGER (the `one` local of the `IN` rewrite). -/
def oneVal : SVal := ⟨.integerT, false, 1, []⟩

/-- Modelled from the spec: `Value::operator-` on numeric values (NULL
propagates, integer keys subtract). -/
def vsub (a b : SVal) : SVal := ⟨a.vtype, a.is_null || b.is_null, a.ival - b.ival, []⟩

/-- `const_value.str_value[const_value.str_value.size() - 1]++`: increment the
last byte of a string, wrapping at 256 as the C++ byte does.  (The empty case
is unreachable at its call sites: the prefix is nonempty there.) -/
def incLastByte : List Nat → List Nat
  | [] => []
  | [b] => [(b + 1) % 256]
  | b :: c :: rest => b :: incLastByte (c :: rest)

/-- The byte predicate of the LIKE rewrite: `c == '%' || c == '_'`. -/
def isWildcard (ch : Nat) : Bool := ch = pctByte || ch = usByte

/-- The prefix-building loop of the LIKE rewrite: walk the literal, collecting
bytes until the first wildcard; the flag is the `equality` local (false iff
the loop stopped at a wildcard). -/
def likeSplit : List Nat → List Nat × Bool
  | [] => ([], true)
  | c :: rest =>
      if isWildcard c then ([], false)
      else
        let pe := likeSplit rest
        (c :: pe.1, pe.2)

/-- `std::sort(in_values.begin(), in_values.end())` with `Value::operator<`:
modelled as insertion sort with the strict order `vlt` (ties keep their
relative order; the source's ordering among equivalent elements is
unspecified). -/
def insertValue (x : SVal) : List SVal → List SVal
  | [] => [x]
  | y :: ys => if vlt x y then x :: y :: ys else y :: insertValue x ys

/-- Sort a value list ascending by `vlt`. -/
def sortValues : List SVal → List SVal
  | [] => []
  | x :: xs => insertValue x (sortValues xs)

/-- The consecutiveness scan of the `IN` rewrite: for every adjacent pair of
the sorted values, fail if the difference exceeds `one` or the earlier value
is NULL. -/
def consecutivePairs : List SVal → Bool
  | a :: b :: rest => (!(vgt (vsub b a) oneVal) && !a.is_null) && consecutivePairs (b :: rest)
  | _ => true

/-- Extract the constants of an all-constant child list (the loop reading
`in_values`); the call site has already checked every child is a constant. -/
def constValuesOf : List CExpr → List SVal
  | [] => []
  | .cst v :: rest => v :: constValuesOf rest
  | _ :: rest => constValuesOf rest

/-- Outcome of one iteration of the residual-filter loop of
`GenerateTableScanFilters`: emit pushdown filters and keep the residual
(`emit`), break out of the loop (`brk`), or emit filters and erase the
residual from the list (`consume`). -/
inductive StepRes where
  | emit (tfs : List TableFilter)
  | brk
  | consume (tfs : List TableFilter)
deriving DecidableEq, Repr

/-- One iteration of the residual-filter loop of
`FilterCombiner::GenerateTableScanFilters` (`filter_combiner.cpp:300-414`):
classify one residual filter and produce its pushdown filters.
`prefix(col, 'lit')` yields `col >= 'lit' AND col < incrementLast('lit')`;
`col ~~ 'lit'` yields an equality for a wildcard-free literal, the
prefix-range pair otherwise, and `break` for a leading wildcard; a
`col IN (...)` of consecutive integer constants yields
`col >= front AND col <= back` of the sorted values and is erased, `break`
on the row-id column, and is kept untouched in every other case. -/
def scanStep (cids : Nat → Nat) : CExpr → StepRes
  | .func name (.colref c :: .cst v :: _) =>
    if name = "prefix" then
      let like_string := v.sval
      if like_string = [] then .emit []
      else
        .emit [⟨{ v with sval := like_string }, .ge, c⟩,
               ⟨{ v with sval := incLastByte like_string }, .lt, c⟩]
    else if name = "~~" then
      let like_string := v.sval
      -- C++ reads like_string[0]; on the empty string this is the NUL byte.
      if isWildcard (like_string.headD 0) then .brk
      else
        let pe := likeSplit like_string
        if pe.2 then .emit [⟨{ v with sval := pe.1 }, .eq, c⟩]
        else
          .emit [⟨{ v with sval := pe.1 }, .ge, c⟩,
                 ⟨{ v with sval := incLastByte pe.1 }, .lt, c⟩]
    else .emit []
  | .inOp (.colref c :: vals) =>
    if cids c = rowIdSentinel then .brk
    else if vals.all (fun ch => match ch with | .cst _ => true | _ => false) then
      match vals with
      | [] =>
        -- source asserts children.size() > 1; an empty value list is skipped
        .emit []
      | .cst fst_value :: _ =>
        if fst_value.vtype.isIntegerTy then
          let sorted := sortValues (constValuesOf vals)
          if consecutivePairs sorted && !(sorted = []) then
            .consume [⟨sorted.headD oneVal, .ge, c⟩, ⟨sorted.getLastD oneVal, .le, c⟩]
          else .emit []
        else .emit []
      | _ :: _ => .emit []
    else .emit []
  | _ => .emit []

/-- The residual-filter loop of `FilterCombiner::GenerateTableScanFilters`:
walk `remaining_filters`, act per `scanStep`, and return the emitted pushdown
filters with the new residual list.  The `erase` of a consumed `IN` filter
followed by the loop increment makes the scan skip the element that follows
it (that element stays in the residual list unexamined), and `break` ends
the walk with the rest of the list untouched. -/
def scanRemaining (cids : Nat → Nat) : List CExpr → List TableFilter × List CExpr
  | [] => ([], [])
  | f :: rest =>
    match scanStep cids f with
    | .brk => ([], f :: rest)
    | .emit tfs =>
      let tr := scanRemaining cids rest
      (tfs ++ tr.1, f :: tr.2)
    | .consume tfs =>
      match rest with
      | [] => (tfs, [])
      | g :: grest =>
        let tr := scanRemaining cids grest
        (tfs ++ tr.1, g :: tr.2)

end DuckCore

namespace DuckCore

theorem likeSplit_fst (s : List Nat) :
    (likeSplit s).1 = s.takeWhile (fun ch => !isWildcard ch) := by
  induction s with
  | nil => rfl
  | cons c rest ih =>
    cases hc : isWildcard c <;>
      simp [likeSplit, hc, List.takeWhile_cons, ih]

theorem likeSplit_snd (s : List Nat) :
    (likeSplit s).2 = !(s.any isWildcard) := by
  induction s with
  | nil => rfl
  | cons c rest ih =>
    cases hc : isWildcard c <;>
      simp [likeSplit, hc, ih]

end DuckCore

namespace DuckCore

/-- C10: in `GenerateTableScanFilters`, encountering a residual `~~` (LIKE)
filter whose literal starts with `'%'` or `'_'` executes `break`, terminating
the residual-filter scan entirely: no pushdown `TableFilter` is emitted for it
or for any residual filter after it, and the residual list is left untouched. -/
theorem scan_breaks_on_leading_wildcard_like
    (cids : Nat → Nat) (c : Nat) (v : SVal) (args post : List CExpr)
    (h : isWildcard (v.sval.headD 0) = true) :
    scanRemaining cids (.func "~~" (.colref c :: .cst v :: args) :: post) =
      ([], .func "~~" (.colref c :: .cst v :: args) :: post) := by
  have h' : isWildcard (v.sval.head?.getD 0) = true := by simpa [List.headD_eq_head?] using h
  have hs : scanStep cids (.func "~~" (.colref c :: .cst v :: args)) = .brk := by
    simp [scanStep, h']
  simp [scanRemaining, hs]

/-- Closed witness for `scan_breaks_on_leading_wildcard_like`: the literal
`"%bc"` ahead of a rewritable LIKE and a rewritable IN yields no pushdown
filters at all. -/
theorem scan_breaks_on_leading_wildcard_like_witness :
    scanRemaining (fun i => i)
        [.func "~~" [.colref 0, .cst ⟨.varcharT, false, 0, [pctByte, 98, 99]⟩],
         .func "~~" [.colref 1, .cst ⟨.varcharT, false, 0, [97, 98]⟩],
         .inOp [.colref 2, .cst (iv 1), .cst (iv 2)]] =
      ([], [.func "~~" [.colref 0, .cst ⟨.varcharT, false, 0, [pctByte, 98, 99]⟩],
            .func "~~" [.colref 1, .cst ⟨.varcharT, false, 0, [97, 98]⟩],
            .inOp [.colref 2, .cst (iv 1), .cst (iv 2)]]) := by
  exact scan_breaks_on_leading_wildcard_like (fun i => i) 0
    ⟨.varcharT, false, 0, [pctByte, 98, 99]⟩ _ _ (by decide)

/-- C7: a residual LIKE filter `col ~~ 'lit'` whose literal has no leading
wildcard is rewritten into pushdown filters as follows: with no `'%'`/`'_'`
anywhere in the literal, one equality filter `col = 'lit'` is emitted;
otherwise the prefix before the first wildcard yields the pair
`col >= prefix` and `col < incrementLast(prefix)`.  In both cases the LIKE
itself stays in the residual list. -/
theorem like_rewrite_no_leading_wildcard
    (cids : Nat → Nat) (c : Nat) (v : SVal) (post : List CExpr)
    (h : isWildcard (v.sval.headD 0) = false) :
    (v.sval.any isWildcard = false →
       scanRemaining cids (.func "~~" [.colref c, .cst v] :: post) =
         (⟨v, .eq, c⟩ :: (scanRemaining cids post).1,
          .func "~~" [.colref c, .cst v] :: (scanRemaining cids post).2)) ∧
    (v.sval.any isWildcard = true →
       scanRemaining cids (.func "~~" [.colref c, .cst v] :: post) =
         (⟨{ v with sval := v.sval.takeWhile (fun ch => !isWildcard ch) }, .ge, c⟩ ::
          ⟨{ v with sval := incLastByte (v.sval.takeWhile (fun ch => !isWildcard ch)) },
             .lt, c⟩ :: (scanRemaining cids post).1,
          .func "~~" [.colref c, .cst v] :: (scanRemaining cids post).2)) := by
  constructor
  · intro hw
    have hlit : (likeSplit v.sval).2 = true := by
      rw [likeSplit_snd, hw]; rfl
    have hfst : (likeSplit v.sval).1 = v.sval := by
      rw [likeSplit_fst, List.takeWhile_eq_self_iff]
      intro a ha
      have : v.sval.any isWildcard = true ∨ isWildcard a = false := by
        cases hz : isWildcard a
        · right; rfl
        · left; exact List.any_eq_true.mpr ⟨a, ha, hz⟩
      rcases this with h1 | h1
      · rw [hw] at h1; cases h1
      · simp [h1]
    have h' : isWildcard (v.sval.head?.getD 0) = false := by simpa [List.headD_eq_head?] using h
    have hs : scanStep cids (.func "~~" [.colref c, .cst v]) = .emit [⟨v, .eq, c⟩] := by
      simp [scanStep, h', hlit, hfst]
    simp [scanRemaining, hs]
  · intro hw
    have hlit : (likeSplit v.sval).2 = false := by
      rw [likeSplit_snd, hw]; rfl
    have hs : scanStep cids (.func "~~" [.colref c, .cst v]) =
        .emit [⟨{ v with sval := v.sval.takeWhile (fun ch => !isWildcard ch) }, .ge, c⟩,
               ⟨{ v with sval := incLastByte (v.sval.takeWhile (fun ch => !isWildcard ch)) },
                  .lt, c⟩] := by
      have h' : isWildcard (v.sval.head?.getD 0) = false := by simpa [List.headD_eq_head?] using h
      simp [scanStep, h', hlit, likeSplit_fst]
    simp [scanRemaining, hs]

/-- Closed witness for `like_rewrite_no_leading_wildcard`: the literal
`"abc"` rewrites to `= "abc"`, and `"abc%"` rewrites to `>= "abc"` and
`< "abd"`. -/
theorem like_rewrite_no_leading_wildcard_witness :
    (scanRemaining (fun i => i)
        [.func "~~" [.colref 0, .cst ⟨.varcharT, false, 0, [97, 98, 99]⟩]] =
      ([⟨⟨.varcharT, false, 0, [97, 98, 99]⟩, .eq, 0⟩],
       [.func "~~" [.colref 0, .cst ⟨.varcharT, false, 0, [97, 98, 99]⟩]])) ∧
    (scanRemaining (fun i => i)
        [.func "~~" [.colref 0, .cst ⟨.varcharT, false, 0, [97, 98, 99, pctByte]⟩]] =
      ([⟨⟨.varcharT, false, 0, [97, 98, 99]⟩, .ge, 0⟩,
        ⟨⟨.varcharT, false, 0, [97, 98, 100]⟩, .lt, 0⟩],
       [.func "~~" [.colref 0, .cst ⟨.varcharT, false, 0, [97, 98, 99, pctByte]⟩]])) := by
  constructor
  · have := (like_rewrite_no_leading_wildcard (fun i => i) 0
      ⟨.varcharT, false, 0, [97, 98, 99]⟩ [] (by decide)).1 (by decide)
    simpa [scanRemaining] using this
  · have := (like_rewrite_no_leading_wildcard (fun i => i) 0
      ⟨.varcharT, false, 0, [97, 98, 99, pctByte]⟩ [] (by decide)).2 (by decide)
    simpa [scanRemaining] using this

end DuckCore

namespace DuckCore

theorem insertValue_perm (x : SVal) (l : List SVal) :
    List.Perm (insertValue x l) (x :: l) := by
  induction l with
  | nil => simp [insertValue]
  | cons y ys ih =>
    by_cases h : vlt x y = true
    · simp [insertValue, h]
    · simp only [insertValue, h, if_false]
      exact (List.Perm.cons y ih).trans (List.Perm.swap x y ys)

theorem sortValues_perm (l : List SVal) : List.Perm (sortValues l) l := by
  induction l with
  | nil => exact List.Perm.refl []
  | cons x xs ih =>
    exact (insertValue_perm x (sortValues xs)).trans (List.Perm.cons x ih)

theorem vlt_false_le {a b : SVal} (ha : a.is_null = false) (hb : b.is_null = false)
    (h : vlt a b = false) : b.ival ≤ a.ival := by
  simp [vlt, ha, hb] at h
  omega

theorem vlt_true_lt {a b : SVal} (h : vlt a b = true) : a.ival < b.ival := by
  simp [vlt] at h
  omega

/-- The value order used to state that the sort output is ascending. -/
def leI (a b : SVal) : Prop := a.ival ≤ b.ival

theorem insertValue_pairwise (x : SVal) (l : List SVal)
    (hx : x.is_null = false) (hl : ∀ y ∈ l, y.is_null = false)
    (h : l.Pairwise leI) : (insertValue x l).Pairwise leI := by
  induction l with
  | nil => simp [insertValue, List.Pairwise]
  | cons y ys ih =>
    rcases List.pairwise_cons.mp h with ⟨hy, hys⟩
    by_cases hv : vlt x y = true
    · have hxy := vlt_true_lt hv
      simp only [insertValue, hv, if_true]
      refine List.pairwise_cons.mpr ⟨?_, h⟩
      intro z hz
      rcases List.mem_cons.mp hz with rfl | hz
      · exact le_of_lt hxy
      · have := hy z hz
        simp only [leI] at *
        omega
    · have hyx : y.ival ≤ x.ival :=
        vlt_false_le hx (hl y (List.mem_cons_self _ _)) (by simpa using hv)
      simp only [insertValue, hv, if_false]
      refine List.pairwise_cons.mpr ⟨?_, ?_⟩
      · intro z hz
        have hz' := (insertValue_perm x ys).mem_iff.mp hz
        rcases List.mem_cons.mp hz' with rfl | hz'
        · exact hyx
        · exact hy z hz'
      · exact ih (fun z hz => hl z (List.mem_cons_of_mem _ hz)) hys

theorem sortValues_pairwise (l : List SVal) (hl : ∀ y ∈ l, y.is_null = false) :
    (sortValues l).Pairwise leI := by
  induction l with
  | nil => simp [sortValues]
  | cons x xs ih =>
    refine insertValue_pairwise x (sortValues xs) (hl x (List.mem_cons_self _ _)) ?_ ?_
    · intro y hy
      exact hl y (List.mem_cons_of_mem _ ((sortValues_perm xs).mem_iff.mp hy))
    · exact ih (fun y hy => hl y (List.mem_cons_of_mem _ hy))

theorem pairwise_head_min {L : List SVal} (h : L.Pairwise leI) :
    ∀ m, L.head? = some m → ∀ y ∈ L, m.ival ≤ y.ival := by
  intro m hm y hy
  cases L with
  | nil => simp at hm
  | cons a t =>
    simp at hm
    subst hm
    rcases List.mem_cons.mp hy with rfl | hy
    · exact le_rfl
    · exact (List.pairwise_cons.mp h).1 y hy

theorem pairwise_last_max {L : List SVal} (h : L.Pairwise leI) :
    ∀ m, L.getLast? = some m → ∀ y ∈ L, y.ival ≤ m.ival := by
  induction L with
  | nil => intro m hm; simp at hm
  | cons a t ih =>
    intro m hm y hy
    cases t with
    | nil =>
      simp at hm hy
      subst hm
      subst hy
      omega
    | cons b u =>
      rw [List.getLast?_cons_cons] at hm
      rcases List.pairwise_cons.mp h with ⟨ha, ht⟩
      rcases List.mem_cons.mp hy with rfl | hy
      · have hmem : m ∈ b :: u := by
          rcases List.mem_getLast?_eq_getLast (l := b :: u) hm with ⟨hh, rfl⟩
          exact List.getLast_mem hh
        exact ha m hmem
      · exact ih ht m hm y hy

end DuckCore

namespace DuckCore

theorem constValuesOf_map (svs : List SVal) :
    constValuesOf (svs.map CExpr.cst) = svs := by
  induction svs with
  | nil => rfl
  | cons v vs ih => simp [constValuesOf, ih]

theorem all_cst_map (svs : List SVal) :
    (svs.map CExpr.cst).all
      (fun ch => match ch with | .cst _ => true | _ => false) = true := by
  induction svs with
  | nil => rfl
  | cons v vs ih => simp

theorem consecutivePairs_iff (l : List SVal) (hnn : ∀ x ∈ l, x.is_null = false) :
    consecutivePairs l = true ↔ List.Chain' (fun a b => b.ival - a.ival ≤ 1) l := by
  induction l with
  | nil => simp [consecutivePairs]
  | cons a t ih =>
    cases t with
    | nil => simp [consecutivePairs]
    | cons b u =>
      have ha : a.is_null = false := hnn a (List.mem_cons_self _ _)
      have hb : b.is_null = false := hnn b (List.mem_cons_of_mem _ (List.mem_cons_self _ _))
      have ih' := ih (fun x hx => hnn x (List.mem_cons_of_mem _ hx))
      simp only [consecutivePairs, List.chain'_cons, Bool.and_eq_true, Bool.not_eq_true'] at *
      constructor
      · rintro ⟨⟨h1, -⟩, h2⟩
        refine ⟨?_, ih'.mp h2⟩
        simp [vgt, vlt, vsub, oneVal, ha, hb] at h1
        omega
      · rintro ⟨h1, h2⟩
        refine ⟨⟨?_, ha⟩, ih'.mpr h2⟩
        simp [vgt, vlt, vsub, oneVal, ha, hb]
        omega

/-- C8 (amended): a residual `col IN (c1,…,ck)` over a bound column reference
(not the row-id column) whose children are all non-NULL integer constants and
whose sorted values have successive differences at most 1 is, when it is the
residual filter the scan examines, replaced by the two pushdown filters
`col >= min` and `col <= max` and removed from `remaining_filters`; an
examined `IN` whose sorted values are not consecutive is left in
`remaining_filters` unchanged and produces no pushdown filter.  (An `IN`
immediately following an erased `IN` is skipped unexamined by the post-erase
index step; see `in_rewrite_skips_following_in`.) -/
theorem in_rewrite_consecutive
    (cids : Nat → Nat) (c : Nat) (v0 : SVal) (vrest : List SVal)
    (hrow : ¬ cids c = rowIdSentinel)
    (hint : ∀ x ∈ v0 :: vrest, x.vtype.isIntegerTy = true)
    (hnn : ∀ x ∈ v0 :: vrest, x.is_null = false) :
    (List.Chain' (fun a b => b.ival - a.ival ≤ 1) (sortValues (v0 :: vrest)) →
       ∃ mn mx,
         scanRemaining cids [.inOp (.colref c :: (v0 :: vrest).map .cst)] =
           ([⟨mn, .ge, c⟩, ⟨mx, .le, c⟩], []) ∧
         mn ∈ v0 :: vrest ∧ mx ∈ v0 :: vrest ∧
         ∀ x ∈ v0 :: vrest, mn.ival ≤ x.ival ∧ x.ival ≤ mx.ival) ∧
    (¬ List.Chain' (fun a b => b.ival - a.ival ≤ 1) (sortValues (v0 :: vrest)) →
       scanRemaining cids [.inOp (.colref c :: (v0 :: vrest).map .cst)] =
         ([], [.inOp (.colref c :: (v0 :: vrest).map .cst)])) := by
  have hnnS : ∀ x ∈ sortValues (v0 :: vrest), x.is_null = false := fun x hx =>
    hnn x ((sortValues_perm _).mem_iff.mp hx)
  have hlen : sortValues (v0 :: vrest) ≠ [] := by
    intro hc
    have := (sortValues_perm (v0 :: vrest)).length_eq
    rw [hc] at this
    simp at this
  constructor
  · intro hchain
    have hcons : consecutivePairs (sortValues (v0 :: vrest)) = true :=
      (consecutivePairs_iff _ hnnS).mpr hchain
    obtain ⟨m, t, hmt⟩ := List.exists_cons_of_ne_nil hlen
    have hstep : scanStep cids (.inOp (.colref c :: .cst v0 :: vrest.map .cst)) =
        .consume [⟨(sortValues (v0 :: vrest)).headD oneVal, .ge, c⟩,
                  ⟨(sortValues (v0 :: vrest)).getLastD oneVal, .le, c⟩] := by
      have hcv : constValuesOf (CExpr.cst v0 :: List.map CExpr.cst vrest) = v0 :: vrest :=
        constValuesOf_map (v0 :: vrest)
      simp [scanStep, hrow, all_cst_map, hint v0 (List.mem_cons_self _ _),
            hcv, hcons, hlen]
    refine ⟨(sortValues (v0 :: vrest)).headD oneVal,
            (sortValues (v0 :: vrest)).getLastD oneVal,
            by simp [scanRemaining, hstep], ?_, ?_, ?_⟩
    · rw [hmt]
      exact (sortValues_perm _).mem_iff.mp (by rw [hmt]; exact List.mem_cons_self _ _)
    · rw [hmt]
      have hmem : (m :: t).getLastD oneVal ∈ m :: t := by
        have := List.getLast?_eq_getLast_of_ne_nil (l := m :: t) (by simp)
        rw [List.getLastD_eq_getLast?, this]
        simp
      have := (sortValues_perm (v0 :: vrest)).mem_iff.mp (by rw [hmt]; exact hmem)
      exact this
    · intro x hx
      have hxS : x ∈ sortValues (v0 :: vrest) := (sortValues_perm _).mem_iff.mpr hx
      have hpw := sortValues_pairwise (v0 :: vrest) hnn
      constructor
      · have hhead : (sortValues (v0 :: vrest)).head? = some m := by rw [hmt]; rfl
        have := pairwise_head_min hpw m hhead x hxS
        have hD : (sortValues (v0 :: vrest)).headD oneVal = m := by rw [hmt]; rfl
        rw [hD]
        exact this
      · have hlast : (sortValues (v0 :: vrest)).getLast? =
            some ((sortValues (v0 :: vrest)).getLastD oneVal) := by
          rw [List.getLastD_eq_getLast?,
              List.getLast?_eq_getLast_of_ne_nil hlen]
          rfl
        exact pairwise_last_max hpw _ hlast x hxS
  · intro hchain
    have hcons : consecutivePairs (sortValues (v0 :: vrest)) = false := by
      cases hcp : consecutivePairs (sortValues (v0 :: vrest))
      · rfl
      · exact absurd ((consecutivePairs_iff _ hnnS).mp hcp) hchain
    have hstep : scanStep cids (.inOp (.colref c :: .cst v0 :: vrest.map .cst)) = .emit [] := by
      have hcv : constValuesOf (CExpr.cst v0 :: List.map CExpr.cst vrest) = v0 :: vrest :=
        constValuesOf_map (v0 :: vrest)
      simp [scanStep, hrow, all_cst_map, hint v0 (List.mem_cons_self _ _),
            hcv, hcons]
    simp [scanRemaining, hstep]

end DuckCore

namespace DuckCore

/-- Closed witness for `in_rewrite_consecutive`: `col0 IN (2, 1)` rewrites to
`col0 >= 1 AND col0 <= 2` and is dropped, while `col0 IN (1, 3, 5)` is kept
unchanged and produces nothing. -/
theorem in_rewrite_consecutive_witness :
    (scanRemaining (fun i => i) [.inOp [.colref 0, .cst (iv 2), .cst (iv 1)]] =
       ([⟨iv 1, .ge, 0⟩, ⟨iv 2, .le, 0⟩], []) ∧ iv 1 ∈ [iv 2, iv 1] ∧ iv 2 ∈ [iv 2, iv 1]) ∧
    scanRemaining (fun i => i) [.inOp [.colref 0, .cst (iv 1), .cst (iv 3), .cst (iv 5)]] =
       ([], [.inOp [.colref 0, .cst (iv 1), .cst (iv 3), .cst (iv 5)]]) := by
  constructor
  · obtain ⟨mn, mx, heq, hmn, hmx, hb⟩ :=
      (in_rewrite_consecutive (fun i => i) 0 (iv 2) [iv 1]
        (by decide) (by decide) (by decide)).1
        (by
          have h : sortValues [iv 2, iv 1] = [iv 1, iv 2] := rfl
          rw [h]
          exact List.chain'_cons.mpr ⟨by norm_num [iv], List.chain'_singleton _⟩)
    have hmn' : mn = iv 1 := by
      rcases List.mem_cons.mp hmn with rfl | hmn
      · have := (hb (iv 1) (by simp)).1
        simp [iv] at this
      · simpa using hmn
    have hmx' : mx = iv 2 := by
      rcases List.mem_cons.mp hmx with rfl | hmx
      · rfl
      · have h1 := (hb (iv 2) (by simp)).2
        have h2 : mx ∈ [iv 1] := hmx
        simp at h2
        rw [h2] at h1
        simp [iv] at h1
    rw [hmn', hmx'] at heq
    exact ⟨heq, by simp, by simp⟩
  · exact (in_rewrite_consecutive (fun i => i) 0 (iv 1) [iv 3, iv 5]
      (by decide) (by decide) (by decide)).2
      (by
        have h : sortValues [iv 1, iv 3, iv 5] = [iv 1, iv 3, iv 5] := rfl
        rw [h]
        intro hc
        have h2 := (List.chain'_cons.mp hc).1
        norm_num [iv] at h2)

/-- Counterexample to C8 as stated: two adjacent rewritable `IN` filters.
The first is consumed; the `erase` followed by the loop increment skips the
second, so `col1 IN (5, 6)` — although it satisfies every condition of the
claim — is left in `remaining_filters` and produces no pushdown filter. -/
theorem in_rewrite_skips_following_in :
    scanRemaining (fun i => i)
        [.inOp [.colref 0, .cst (iv 1), .cst (iv 2)],
         .inOp [.colref 1, .cst (iv 5), .cst (iv 6)]] =
      ([⟨iv 1, .ge, 0⟩, ⟨iv 2, .le, 0⟩],
       [.inOp [.colref 1, .cst (iv 5), .cst (iv 6)]]) ∧
    ∀ tf ∈ (scanRemaining (fun i => i)
        [.inOp [.colref 0, .cst (iv 1), .cst (iv 2)],
         .inOp [.colref 1, .cst (iv 5), .cst (iv 6)]]).1,
      tf.column_index ≠ 1 := by
  constructor
  · rfl
  · decide

end DuckCore

namespace DuckCore

/-- `duckdb::ValueComparisonResult`. -/
inductive ValueComparisonResult where
  | PRUNE_LEFT
  | PRUNE_RIGHT
  | UNSATISFIABLE_CONDITION
  | PRUNE_NOTHING
deriving DecidableEq, Repr

/-- `FilterCombiner::ExpressionValueInformation`: one constant bound. -/
structure EVI where
  comparison_type : CmpOp
  constant : SVal
deriving DecidableEq, Repr

/-- `InvertValueComparisonResult`: swap the prune sides. -/
def invertVCR : ValueComparisonResult → ValueComparisonResult
  | .PRUNE_RIGHT => .PRUNE_LEFT
  | .PRUNE_LEFT => .PRUNE_RIGHT
  | r => r

/-- `IsGreaterThan`. -/
def isGreaterThanOp (op : CmpOp) : Bool := op = .gt || op = .ge

/-- `IsLessThan`. -/
def isLessThanOp (op : CmpOp) : Bool := op = .lt || op = .le

/-- The `left.comparison_type == COMPARE_EQUAL` block of
`CompareValueInformation`: prune the right bound if the equality constant
satisfies it, otherwise the pair is unsatisfiable. -/
def cviLeftEq (l r : EVI) : ValueComparisonResult :=
  let prune_right_side :=
    match r.comparison_type with
    | .lt => vlt l.constant r.constant
    | .le => vle l.constant r.constant
    | .gt => vgt l.constant r.constant
    | .ge => vge l.constant r.constant
    | .neq => vne l.constant r.constant
    | .eq => veq l.constant r.constant
  if prune_right_side then .PRUNE_RIGHT else .UNSATISFIABLE_CONDITION

/-- The `left.comparison_type == COMPARE_NOTEQUAL` block of
`CompareValueInformation`: prune the not-equal bound if the other bound
already excludes its constant, otherwise prune nothing. -/
def cviLeftNeq (l r : EVI) : ValueComparisonResult :=
  let prune_left_side :=
    match r.comparison_type with
    | .lt => vge l.constant r.constant
    | .le => vgt l.constant r.constant
    | .gt => vle l.constant r.constant
    | .ge => vlt l.constant r.constant
    | _ => veq l.constant r.constant
  if prune_left_side then .PRUNE_LEFT else .PRUNE_NOTHING

/-- The both-`>`-family block: keep the tighter (larger) constant; on a tie
keep the strict bound. -/
def cviBothGt (l r : EVI) : ValueComparisonResult :=
  if vgt l.constant r.constant then .PRUNE_RIGHT
  else if vlt l.constant r.constant then .PRUNE_LEFT
  else if l.comparison_type = .ge then .PRUNE_LEFT
  else .PRUNE_RIGHT

/-- The both-`<`-family block: keep the tighter (smaller) constant; on a tie
keep the strict bound. -/
def cviBothLt (l r : EVI) : ValueComparisonResult :=
  if vlt l.constant r.constant then .PRUNE_RIGHT
  else if vgt l.constant r.constant then .PRUNE_LEFT
  else if l.comparison_type = .le then .PRUNE_LEFT
  else .PRUNE_RIGHT

/-- The `<`-family versus `>`-family block: prune nothing when the upper
constant is `>=` the lower constant, otherwise the pair is unsatisfiable. -/
def cviLtGt (l r : EVI) : ValueComparisonResult :=
  if vge l.constant r.constant then .PRUNE_NOTHING else .UNSATISFIABLE_CONDITION

/-- `CompareValueInformation` (`filter_combiner.cpp:708-831`), with the
symmetric branches factored so that the source's self-calls with swapped
arguments become calls to the factored blocks. -/
def cvi (l r : EVI) : ValueComparisonResult :=
  if l.comparison_type = .eq then cviLeftEq l r
  else if r.comparison_type = .eq then invertVCR (cviLeftEq r l)
  else if l.comparison_type = .neq then cviLeftNeq l r
  else if r.comparison_type = .neq then invertVCR (cviLeftNeq r l)
  else if isGreaterThanOp l.comparison_type && isGreaterThanOp r.comparison_type then
    cviBothGt l r
  else if isLessThanOp l.comparison_type && isLessThanOp r.comparison_type then
    cviBothLt l r
  else if isLessThanOp l.comparison_type then cviLtGt l r
  else invertVCR (cviLtGt r l)

/-- Counterexample to C3 as stated: the pair `x < 5` (upper bound) and
`x > 5` (lower bound) has `L = U` with both comparisons strict, which the
claim says is `UNSATISFIABLE_CONDITION`; the code compares the constants with
`>=` and returns `PRUNE_NOTHING`. -/
theorem cvi_equal_strict_not_unsat :
    cvi ⟨.lt, iv 5⟩ ⟨.gt, iv 5⟩ = .PRUNE_NOTHING ∧
    cvi ⟨.lt, iv 5⟩ ⟨.gt, iv 5⟩ ≠ .UNSATISFIABLE_CONDITION := by
  constructor
  · rfl
  · decide

/-- C3 (amended): for one `<`-family bound with constant U and one
`>`-family bound with constant L (non-NULL constants), in either argument
order, `CompareValueInformation` returns `UNSATISFIABLE_CONDITION` exactly
when `L > U`, and `PRUNE_NOTHING` in every other such pair — including
`L = U` with strict comparisons. -/
theorem cvi_lt_gt_families (lop gop : CmpOp) (u l : SVal)
    (hlop : isLessThanOp lop = true) (hgop : isGreaterThanOp gop = true)
    (hu : u.is_null = false) (hl : l.is_null = false) :
    (cvi ⟨lop, u⟩ ⟨gop, l⟩ =
       if u.ival < l.ival then .UNSATISFIABLE_CONDITION else .PRUNE_NOTHING) ∧
    (cvi ⟨gop, l⟩ ⟨lop, u⟩ =
       if u.ival < l.ival then .UNSATISFIABLE_CONDITION else .PRUNE_NOTHING) := by
  have hge : vge u l = decide (l.ival ≤ u.ival) := by simp [vge, vle, hu, hl]
  rcases (by cases lop <;> simp_all [isLessThanOp] : lop = .lt ∨ lop = .le) with rfl | rfl <;>
    rcases (by cases gop <;> simp_all [isGreaterThanOp] : gop = .gt ∨ gop = .ge) with rfl | rfl <;>
      constructor <;>
        · simp only [cvi, cviLtGt, isLessThanOp, isGreaterThanOp, invertVCR, hge]
          by_cases hc : u.ival < l.ival
          · simp [hc, show ¬ l.ival ≤ u.ival from by omega, invertVCR]
          · simp [hc, show l.ival ≤ u.ival from by omega, invertVCR]

/-- Closed witness for `cvi_lt_gt_families`: `x <= 3` against `x >= 7`
(lower 7 > upper 3) is unsatisfiable, `x < 5` against `x > 5` prunes
nothing. -/
theorem cvi_lt_gt_families_witness :
    cvi ⟨.le, iv 3⟩ ⟨.ge, iv 7⟩ = .UNSATISFIABLE_CONDITION ∧
    cvi ⟨.gt, iv 5⟩ ⟨.lt, iv 5⟩ = .PRUNE_NOTHING := by
  constructor
  · have := (cvi_lt_gt_families .le .ge (iv 3) (iv 7) rfl rfl rfl rfl).1
    simpa [iv] using this
  · have := (cvi_lt_gt_families .lt .gt (iv 5) (iv 5) rfl rfl rfl rfl).2
    simpa [iv] using this

end DuckCore

namespace DuckCore

/-- Default value used for out-of-range vector accesses of the embedding
(the C++ indexes are asserted in range at the modelled call sites). -/
def dfltVal : SVal := nullv .otherT

/-- `duckdb::WindowBoundary`. -/
inductive WindowBoundary where
  | unboundedPreceding
  | currentRowRows
  | currentRowRange
  | unboundedFollowing
  | exprPreceding
  | exprFollowing
deriving DecidableEq, Repr

/-- `EqualsSubset(a, b, start, end)`: the value ranges `[start, end)` of two
rows are equal (no index holds `a[i] != b[i]`). -/
def equalsSubset (a b : List SVal) (s e : Nat) : Bool :=
  (List.range' s (e - s)).all (fun i => !vne (a.getD i dfltVal) (b.getD i dfltVal))

/-- The `while (l < r)` loop of `BinarySearchRightmost`
(`physical_window.cpp:30-50`): the midpoint row is `less_than_equals` when
none of its first K columns is greater than the probe row's.  The loop is
written with a fuel argument so that it computes by structural recursion;
the interval length strictly decreases each iteration, so the wrapper's fuel
`r - l + 1` always suffices and the zero-fuel branch is unreachable. -/
def bsrLoop (input : List (List SVal)) (row : List SVal) (K : Nat) :
    Nat → Nat → Nat → Nat
  | 0, l, _ => l - 1
  | fuel + 1, l, r =>
    if l < r then
      let m := (l + r) / 2
      let lte := (List.range K).all
        (fun i => !vgt ((input.getD m []).getD i dfltVal) (row.getD i dfltVal))
      if lte then bsrLoop input row K fuel (m + 1) r
      else bsrLoop input row K fuel l m
    else l - 1

/-- `BinarySearchRightmost(input, row, l, r, comp_cols)`: rightmost binary
search on the first K columns; `r - 1` when `K == 0`.  (The final `l - 1` is
`Nat` truncated subtraction; the `size_t` wrap at `l = 0` cannot occur at the
modelled call sites, where the probe row itself is never "greater" than
itself.) -/
def binarySearchRightmost (input : List (List SVal)) (row : List SVal)
    (l r K : Nat) : Nat :=
  if K = 0 then r - 1 else bsrLoop input row K (r - l + 1) l r

/-- `WindowBoundariesState` (`physical_window.cpp:117-127`); `ssize_t`
members become `Int`. -/
structure WBState where
  partition_start : Nat := 0
  partition_end : Nat := 0
  peer_start : Nat := 0
  peer_end : Nat := 0
  window_start : Int := -1
  window_end : Int := -1
  is_same_partition : Bool := false
  is_peer : Bool := false
  row_prev : List SVal := []
deriving Repr

/-- The parts of a `WindowExpression` that drive the boundary sweep: the
number of PARTITION BY and ORDER BY columns, the two boundary kinds, and
whether each boundary expression is scalar. -/
structure WSpec where
  nparts : Nat
  nords : Nat
  wstart : WindowBoundary
  wend : WindowBoundary
  start_scalar : Bool := true
  end_scalar : Bool := true

/-- `Value::GetNumericValue` (modelled from the spec: numeric value of a
non-NULL scalar; undefined on NULL). -/
def getNumeric (v : SVal) : Option Int :=
  if v.is_null then none else some v.ival

/-- `collection.GetValue(0, scalar ? 0 : row_idx).GetNumericValue()` on a
materialized single-column boundary collection. -/
def boundaryValue (col : List SVal) (scalar : Bool) (row_idx : Nat) : Option Int :=
  (col.get? (if scalar then 0 else row_idx)).bind getNumeric

/-- `(size_t)` conversion of an `ssize_t` value: reduction modulo `2^64`.
This is the implicit conversion in `bounds.window_end > bounds.partition_end`
(`physical_window.cpp:228`), where the signed `window_end` is converted to
unsigned for the comparison. -/
def toSizeT (i : Int) : Nat := (i % (2 ^ 64 : Int)).toNat

/-- The clamp-and-check tail of `UpdateWindowBoundaries`
(`physical_window.cpp:224-234`) exactly as the code executes it: the
window-start clamp is a signed comparison, the window-end clamp compares the
signed `window_end` with the unsigned `partition_end` (so a negative
`window_end` converts to a huge unsigned value and is clamped **up** to
`partition_end`), and then the negativity check throws
"Failed to compute window boundaries". -/
def codeClampCheck (ps pe : Nat) (ws we : Int) : Except String (Int × Int) :=
  let ws' := if ws < (ps : Int) then (ps : Int) else ws
  let we' := if toSizeT we > pe then (pe : Int) else we
  if ws' < 0 ∨ we' < 0 then .error "Failed to compute window boundaries"
  else .ok (ws', we')

/-- Modelled from the spec (section 4.3, step 7): "clamp:
`window_start := max(window_start, partition_start)`,
`window_end := min(window_end, partition_end)`.  If either is negative after
clamping, fail with `InvalidWindowBoundary`." -/
def specClampCheck (ps pe : Nat) (ws we : Int) : Except String (Int × Int) :=
  let ws' := max ws (ps : Int)
  let we' := min we (pe : Int)
  if ws' < 0 ∨ we' < 0 then .error "Failed to compute window boundaries"
  else .ok (ws', we')

/-- The partition/peer bookkeeping of `UpdateWindowBoundaries`
(`physical_window.cpp:132-152`): flags, `row_prev`, and the
partition-change / peer-change branches. -/
def uwbBook (nparts nords : Nat) (input : List (List SVal)) (m : Nat)
    (st : WBState) : WBState :=
  let row_cur := input.getD m []
  let same := equalsSubset st.row_prev row_cur 0 nparts
  let peer := same && equalsSubset st.row_prev row_cur nparts (nparts + nords)
  let st1 : WBState :=
    { st with is_same_partition := same, is_peer := peer, row_prev := row_cur }
  if !same || m = 0 then
    { st1 with
        partition_start := m
        peer_start := m
        partition_end :=
          binarySearchRightmost input row_cur m input.length nparts + 1 }
  else if !peer then { st1 with peer_start := m }
  else st1

/-- The `CURRENT ROW` (RANGE) peer-end search of `UpdateWindowBoundaries`
(`physical_window.cpp:154-156`). -/
def uwbPeerEnd (w : WSpec) (input : List (List SVal)) (m : Nat)
    (st2 : WBState) : WBState :=
  if w.wend = .currentRowRange then
    { st2 with
        peer_end :=
          binarySearchRightmost input (input.getD m []) m st2.partition_end
            (w.nparts + w.nords) + 1 }
  else st2

/-- `UpdateWindowBoundaries` (`physical_window.cpp:129-235`): partition and
peer bookkeeping, boundary resolution by `WindowBoundary` kind, then the
clamp-and-check tail.  `none` models an unreachable `assert(0)` boundary
kind or an undefined numeric boundary value; a thrown exception is
`some (.error ...)`. -/
def updateWindowBoundaries (w : WSpec) (input : List (List SVal)) (row_idx : Nat)
    (bsc bec : List SVal) (st : WBState) : Option (Except String WBState) :=
  let st3 : WBState :=
    uwbPeerEnd w input row_idx (uwbBook w.nparts w.nords input row_idx st)
  let wsOpt : Option Int :=
    match w.wstart with
    | .unboundedPreceding => some (st3.partition_start : Int)
    | .currentRowRows => some (row_idx : Int)
    | .currentRowRange => some (st3.peer_start : Int)
    | .unboundedFollowing => none
    | .exprPreceding =>
        (boundaryValue bsc w.start_scalar row_idx).map (fun v => (row_idx : Int) - v)
    | .exprFollowing =>
        (boundaryValue bsc w.start_scalar row_idx).map (fun v => (row_idx : Int) + v)
  let weOpt : Option Int :=
    match w.wend with
    | .unboundedPreceding => none
    | .currentRowRows => some ((row_idx : Int) + 1)
    | .currentRowRange => some (st3.peer_end : Int)
    | .unboundedFollowing => some (st3.partition_end : Int)
    | .exprPreceding =>
        (boundaryValue bec w.end_scalar row_idx).map (fun v => (row_idx : Int) - v + 1)
    | .exprFollowing =>
        (boundaryValue bec w.end_scalar row_idx).map (fun v => (row_idx : Int) + v + 1)
  match wsOpt, weOpt with
  | some ws, some we =>
    match codeClampCheck st3.partition_start st3.partition_end ws we with
    | .error msg => some (.error msg)
    | .ok wsWe => some (.ok { st3 with window_start := wsWe.1, window_end := wsWe.2 })
  | _, _ => none

/-- C6: the claim says `UpdateWindowBoundaries` clamps `window_end` **down**
to `partition_end` and raises "Failed to compute window boundaries" iff a
boundary is negative after clamping.  On one row with frame
`UNBOUNDED PRECEDING .. 5 PRECEDING`, the resolved `window_end` is `-4`; the
spec-modelled clamp keeps `-4 = min(-4, 1)` and raises the failure, but the
code's `window_end > partition_end` comparison converts the negative signed
`window_end` to a huge unsigned value, clamps it **up** to `partition_end`,
and returns successfully — the negativity check is unreachable. -/
theorem window_end_clamp_diverges_from_spec :
    (updateWindowBoundaries
        ⟨1, 0, .unboundedPreceding, .exprPreceding, true, true⟩
        [[iv 0]] 0 [] [iv 5] { row_prev := [iv 0] } =
      some (.ok
        { partition_start := 0, partition_end := 1, peer_start := 0, peer_end := 0,
          window_start := 0, window_end := 1,
          is_same_partition := true, is_peer := true, row_prev := [iv 0] })) ∧
    specClampCheck 0 1 0 (-4) = .error "Failed to compute window boundaries" ∧
    codeClampCheck 0 1 0 (-4) = .ok (0, 1) := by
  refine ⟨?_, ?_, ?_⟩ <;> rfl

end DuckCore

namespace DuckCore

/-- The window function types of `ExpressionType::WINDOW_*`. -/
inductive WinTy where
  | sum
  | min
  | max
  | avg
  | count_star
  | row_number
  | rank
  | dense_rank
  | first_value
  | last_value
deriving DecidableEq, Repr

/-- Modelled from the spec: `Value::operator+` (NULL propagates, integer
keys add; the result keeps the left type tag). -/
def vadd (a b : SVal) : SVal := ⟨a.vtype, a.is_null || b.is_null, a.ival + b.ival, []⟩

/-- Modelled from the spec: `Value::operator/` on integer-typed values
(C++ truncating division). -/
def vdiv (a b : SVal) : SVal := ⟨a.vtype, a.is_null || b.is_null, a.ival.tdiv b.ival, []⟩

/-- Modelled from the spec: `Value::Numeric(type, n)`. -/
def vnum (t : VT) (n : Int) : SVal := ⟨t, false, n, []⟩

/-- Modelled from the spec: `Value::MaximumValue(type)` — the numeric
maximum sentinel of an integer type. -/
def maxSentinel : VT → Int
  | .tinyintT => 2 ^ 7 - 1
  | .smallintT => 2 ^ 15 - 1
  | .integerT => 2 ^ 31 - 1
  | .bigintT => 2 ^ 63 - 1
  | .hugeintT => 2 ^ 127 - 1
  | _ => 0

/-- Modelled from the spec: `Value::MinimumValue(type)`. -/
def minSentinel : VT → Int
  | .tinyintT => -(2 ^ 7)
  | .smallintT => -(2 ^ 15)
  | .integerT => -(2 ^ 31)
  | .bigintT => -(2 ^ 63)
  | .hugeintT => -(2 ^ 127)
  | _ => 0

/-- `WindowSegmentTree::AggregateInit` (`physical_window.cpp:418-434`):
the aggregate value and `n_aggregated = 0`; `none` models the
`NotImplementedException` of a non-aggregate window type. -/
def aggregateInit (wt : WinTy) (pt : VT) : Option (SVal × Nat) :=
  match wt with
  | .sum | .avg => some (vnum pt 0, 0)
  | .min => some (vnum pt (maxSentinel pt), 0)
  | .max => some (vnum pt (minSentinel pt), 0)
  | _ => none

/-- `WindowSegmentTree::AggregateAccum` (`physical_window.cpp:436-456`). -/
def aggregateAccum (wt : WinTy) (st : SVal × Nat) (val : SVal) : Option (SVal × Nat) :=
  match wt with
  | .sum | .avg => some (vadd st.1 val, st.2 + 1)
  | .min => some (if vlt val st.1 then val else st.1, st.2 + 1)
  | .max => some (if vgt val st.1 then val else st.1, st.2 + 1)
  | _ => none

/-- `WindowSegmentTree::AggegateFinal` (`physical_window.cpp:458-474`):
NULL (cast to the payload type) on an empty accumulation; `AVG` divides by
`n_aggregated`. -/
def aggegateFinal (wt : WinTy) (pt : VT) (st : SVal × Nat) : Option SVal :=
  if st.2 = 0 then some (nullv pt)
  else
    match wt with
    | .sum | .min | .max => some st.1
    | .avg => some (vdiv st.1 (vnum pt (st.2 : Int)))
    | _ => none

/-- Accumulate the values of `src` at indices `[b, e)` into the running
aggregate (the loop of `WindowSegmentTree::WindowSegmentValue`). -/
def accumRange (wt : WinTy) (src : List SVal) (b e : Nat) (st : SVal × Nat) :
    Option (SVal × Nat) :=
  (List.range' b (e - b)).foldlM (fun s i => aggregateAccum wt s (src.getD i dfltVal)) st

/-- `WindowSegmentTree::WindowSegmentValue(l_idx, begin, end)`
(`physical_window.cpp:501-506`): level 0 reads the payload, level `k > 0`
reads `levels[k-1]`. -/
def windowSegmentValue (wt : WinTy) (payload : List SVal) (levels : List (List SVal))
    (l_idx b e : Nat) (st : SVal × Nat) : Option (SVal × Nat) :=
  accumRange wt (if l_idx = 0 then payload else levels.getD (l_idx - 1) []) b e st

/-- The per-level `for (pos ...)` loop of `WindowSegmentTree::Construct`
(`physical_window.cpp:485-496`): accumulate values, pushing a finalized
aggregate and re-initializing every `fanout` values; a short tail group is
finalized and pushed **without** re-initializing, so the returned running
state leaks into the construction of the next level exactly as in the
source. -/
def buildLevelFrom (wt : WinTy) (pt : VT) (fanout : Nat) :
    List SVal → (SVal × Nat) → Nat → Option (List SVal × (SVal × Nat))
  | [], st, cnt =>
    if 0 < cnt then (aggegateFinal wt pt st).map (fun v => ([v], st))
    else some ([], st)
  | x :: xs, st, cnt =>
    (aggregateAccum wt st x).bind fun st1 =>
      if cnt + 1 = fanout then
        (aggegateFinal wt pt st1).bind fun v =>
          (aggregateInit wt pt).bind fun st0 =>
            (buildLevelFrom wt pt fanout xs st0 0).map (fun r => (v :: r.1, r.2))
      else
        buildLevelFrom wt pt fanout xs st1 (cnt + 1)

/-- The `while (level_size > 1)` loop of `WindowSegmentTree::Construct`
(`physical_window.cpp:476-499`), with fuel (the level size strictly
decreases, so `payload.length + 1` iterations always suffice). -/
def constructGo (wt : WinTy) (pt : VT) (fanout : Nat) (payload : List SVal) :
    Nat → List (List SVal) → (SVal × Nat) → Option (List (List SVal))
  | 0, levels, _ => some levels
  | fuel + 1, levels, st =>
    let cur := match levels.getLast? with
      | none => payload
      | some l => l
    if cur.length ≤ 1 then some levels
    else
      (buildLevelFrom wt pt fanout cur st 0).bind fun r =>
        constructGo wt pt fanout payload fuel (levels ++ [r.1]) r.2

/-- `WindowSegmentTree::Construct`: initialize the aggregate once and build
the levels bottom-up. -/
def construct (wt : WinTy) (pt : VT) (fanout : Nat) (payload : List SVal) :
    Option (List (List SVal)) :=
  (aggregateInit wt pt).bind fun st0 =>
    constructGo wt pt fanout payload (payload.length + 1) [] st0

/-- The level-descent loop of `WindowSegmentTree::Compute`
(`physical_window.cpp:508-532`): at each level accumulate the unaligned tail
and prefix groups, divide the bounds by the fanout, and finalize when the
bounds land in one parent group (or when the loop exhausts the levels). -/
def computeGo (wt : WinTy) (pt : VT) (fanout : Nat) (payload : List SVal)
    (levels : List (List SVal)) :
    Nat → Nat → Nat → Nat → (SVal × Nat) → Option SVal
  | 0, _, _, _, st => aggegateFinal wt pt st
  | fuel + 1, l_idx, b, e, st =>
    let pb := b / fanout
    let pe := e / fanout
    if pb = pe then
      (windowSegmentValue wt payload levels l_idx b e st).bind (aggegateFinal wt pt)
    else
      let gb := pb * fanout
      (if b ≠ gb then
          (windowSegmentValue wt payload levels l_idx b (gb + fanout) st).map
            (fun s => (s, pb + 1))
        else some (st, pb)).bind fun s1 =>
        let ge := pe * fanout
        (if e ≠ ge then windowSegmentValue wt payload levels l_idx ge e s1.1
          else some s1.1).bind fun st2 =>
          computeGo wt pt fanout payload levels fuel (l_idx + 1) s1.2 pe st2

/-- `WindowSegmentTree::Compute(begin, end)`. -/
def stCompute (wt : WinTy) (pt : VT) (fanout : Nat) (payload : List SVal)
    (levels : List (List SVal)) (b e : Nat) : Option SVal :=
  (aggregateInit wt pt).bind fun st0 =>
    computeGo wt pt fanout payload levels (levels.length + 1) 0 b e st0

/-- The naive linear accumulation of the claim: the same
`AggregateInit`/`AggregateAccum`/`AggegateFinal` fold applied directly to
the payload values of `[b, e)`. -/
def naiveAggregate (wt : WinTy) (pt : VT) (payload : List SVal) (b e : Nat) :
    Option SVal :=
  (aggregateInit wt pt).bind fun st0 =>
    (accumRange wt payload b e st0).bind (aggegateFinal wt pt)

/-- 16 zeroes followed by 17: the 17-row payload on which the segment-tree
`AVG` diverges from the naive average. -/
def payload17 : List SVal := List.replicate 16 (iv 0) ++ [iv 17]

/-- C1: the claim says `Compute(a, b)` for `SUM/MIN/MAX/AVG` equals the
naive linear accumulation over `[a, b)`.  For `AVG` the tree levels store
`AggegateFinal()` of each group — already-divided averages — so `Compute`
mixes per-group averages with raw payload values and divides by the number
of accumulated items: on 16 zeroes followed by 17 with frame `[0, 17)` the
tree returns `(17 + 0) / 2 = 8` while the naive average is `17 / 17 = 1`. -/
theorem avg_segment_tree_diverges_from_naive :
    (construct .avg .bigintT 16 payload17).bind
        (fun lv => stCompute .avg .bigintT 16 payload17 lv 0 17) = some (iv 8) ∧
    naiveAggregate .avg .bigintT payload17 0 17 = some (iv 1) := by
  constructor <;> rfl

end DuckCore

namespace DuckCore

/-- The result-dispatch switch of `ComputeWindowExpression`
(`physical_window.cpp:313-349`) for the window types whose result is a pure
function of the frame: the framed aggregates query the segment tree,
`COUNT(*)` is the frame width, `ROW_NUMBER` is the offset from the frame
start, `FIRST_VALUE`/`LAST_VALUE` index the payload.  The ranking types keep
per-row state and are modelled by the standalone ranking machine; here they
are undefined. -/
def dispatchAgg (wt : WinTy) (pt : VT) (payload : List SVal)
    (levels : List (List SVal)) (row_idx : Nat) (ws we : Int) : Option SVal :=
  match wt with
  | .sum | .min | .max | .avg => stCompute wt pt 16 payload levels ws.toNat we.toNat
  | .count_star => some (vnum pt (we - ws))
  | .row_number => some (vnum pt ((row_idx : Int) - ws + 1))
  | .first_value => some (payload.getD ws.toNat dfltVal)
  | .last_value => some (payload.getD (we.toNat - 1) dfltVal)
  | .rank | .dense_rank => none

/-- One row of the main loop after the boundaries are updated: NULL when the
frame is empty (`window_start >= window_end`), the dispatched result
otherwise. -/
def rowResult (wt : WinTy) (pt : VT) (payload : List SVal)
    (levels : List (List SVal)) (row_idx : Nat) (ws we : Int) : Option SVal :=
  if we ≤ ws then some (nullv pt) else dispatchAgg wt pt payload levels row_idx ws we

/-- The main per-row loop of `ComputeWindowExpression`
(`physical_window.cpp:290-351`) for the frame-function window types:
update the boundaries, evaluate the row, recurse on the next row. -/
def sweepGo (w : WSpec) (wt : WinTy) (pt : VT) (input : List (List SVal))
    (payload : List SVal) (levels : List (List SVal)) (bsc bec : List SVal) :
    Nat → Nat → WBState → Option (List SVal)
  | 0, _, _ => some []
  | fuel + 1, i, st =>
    (updateWindowBoundaries w input i bsc bec st).bind fun res =>
      match res with
      | .error _ => none
      | .ok st' =>
        (rowResult wt pt payload levels i st'.window_start st'.window_end).bind fun v =>
          (sweepGo w wt pt input payload levels bsc bec fuel (i + 1) st').map
            (fun l => v :: l)

/-- `ComputeWindowExpression` for a frame-function window type: build the
segment tree for the framed aggregates, then run the per-row sweep starting
from `row_prev = input.GetRow(0)`. -/
def windowResults (w : WSpec) (wt : WinTy) (pt : VT) (input : List (List SVal))
    (payload : List SVal) (bsc bec : List SVal) : Option (List SVal) :=
  (match wt with
    | .sum | .min | .max | .avg => construct wt pt 16 payload
    | _ => some ([] : List (List SVal))).bind fun levels =>
    sweepGo w wt pt input payload levels bsc bec input.length 0
      { row_prev := input.getD 0 [] }

theorem toSizeT_coe (n : Nat) : toSizeT (n : Int) = n % 2 ^ 64 := by
  simp only [toSizeT]
  rw [show ((2 : Int) ^ 64) = ((2 ^ 64 : Nat) : Int) by norm_cast, ← Int.natCast_mod]
  exact Int.toNat_natCast _

theorem codeClampCheck_cast (ps pe : Nat) :
    codeClampCheck ps pe (ps : Int) (pe : Int) = .ok ((ps : Int), (pe : Int)) := by
  unfold codeClampCheck
  rw [toSizeT_coe, if_neg (lt_irrefl _),
      if_neg (by have := Nat.mod_le pe (2 ^ 64); omega),
      if_neg (by push_cast; omega)]

theorem uwbBook_row_prev (nparts nords : Nat) (input : List (List SVal))
    (m : Nat) (st : WBState) :
    (uwbBook nparts nords input m st).row_prev = input.getD m [] := by
  simp only [uwbBook]
  split
  · rfl
  · split <;> rfl

theorem uwbPeerEnd_row_prev (w : WSpec) (input : List (List SVal)) (m : Nat)
    (st2 : WBState) : (uwbPeerEnd w input m st2).row_prev = st2.row_prev := by
  simp only [uwbPeerEnd]
  split <;> rfl

theorem uwbPeerEnd_partition_start (w : WSpec) (input : List (List SVal)) (m : Nat)
    (st2 : WBState) :
    (uwbPeerEnd w input m st2).partition_start = st2.partition_start := by
  simp only [uwbPeerEnd]
  split <;> rfl

theorem uwbPeerEnd_partition_end (w : WSpec) (input : List (List SVal)) (m : Nat)
    (st2 : WBState) :
    (uwbPeerEnd w input m st2).partition_end = st2.partition_end := by
  simp only [uwbPeerEnd]
  split <;> rfl

theorem uwbBook_same_partition (nparts nords : Nat) (input : List (List SVal))
    (m : Nat) (st : WBState) (hm : m ≠ 0)
    (hsame : equalsSubset st.row_prev (input.getD m []) 0 nparts = true) :
    (uwbBook nparts nords input m st).partition_start = st.partition_start ∧
    (uwbBook nparts nords input m st).partition_end = st.partition_end := by
  simp only [uwbBook, hsame, Bool.not_true, Bool.false_or, decide_eq_true_eq]
  rw [if_neg hm]
  split <;> exact ⟨rfl, rfl⟩

/-- For the `UNBOUNDED PRECEDING .. UNBOUNDED FOLLOWING` frame, every
successful boundary update leaves `window_start = partition_start` and
`window_end = partition_end` (the clamps are no-ops on them and the
negativity check cannot fire), and `row_prev` becomes the current row. -/
theorem uwb_unbounded_shape (nparts nords : Nat) (input : List (List SVal))
    (m : Nat) (bsc bec : List SVal) (st st' : WBState)
    (h : updateWindowBoundaries ⟨nparts, nords, .unboundedPreceding,
          .unboundedFollowing, true, true⟩ input m bsc bec st = some (.ok st')) :
    st'.window_start = (st'.partition_start : Int) ∧
    st'.window_end = (st'.partition_end : Int) ∧
    st'.row_prev = input.getD m [] := by
  simp only [updateWindowBoundaries] at h
  rw [codeClampCheck_cast] at h
  simp only [Option.some.injEq, Except.ok.injEq] at h
  subst h
  refine ⟨rfl, rfl, ?_⟩
  exact (uwbPeerEnd_row_prev _ _ _ _).trans (uwbBook_row_prev _ _ _ _ _)

/-- For the `UNBOUNDED PRECEDING .. UNBOUNDED FOLLOWING` frame, a boundary
update on a later row of the same partition keeps `partition_start` and
`partition_end` unchanged. -/
theorem uwb_unbounded_same (nparts nords : Nat) (input : List (List SVal))
    (m : Nat) (bsc bec : List SVal) (st st' : WBState)
    (h : updateWindowBoundaries ⟨nparts, nords, .unboundedPreceding,
          .unboundedFollowing, true, true⟩ input m bsc bec st = some (.ok st'))
    (hm : m ≠ 0)
    (hsame : equalsSubset st.row_prev (input.getD m []) 0 nparts = true) :
    st'.partition_start = st.partition_start ∧
    st'.partition_end = st.partition_end := by
  simp only [updateWindowBoundaries] at h
  rw [codeClampCheck_cast] at h
  simp only [Option.some.injEq, Except.ok.injEq] at h
  subst h
  obtain ⟨h1, h2⟩ := uwbBook_same_partition nparts nords input m st hm hsame
  exact ⟨(uwbPeerEnd_partition_start _ _ _ _).trans h1,
         (uwbPeerEnd_partition_end _ _ _ _).trans h2⟩

end DuckCore

namespace DuckCore

theorem rowResult_row_irrelevant (wt : WinTy) (pt : VT) (payload : List SVal)
    (levels : List (List SVal)) (i j : Nat) (ws we : Int)
    (hwt : wt ≠ .row_number) :
    rowResult wt pt payload levels i ws we = rowResult wt pt payload levels j ws we := by
  cases wt <;> simp_all [rowResult, dispatchAgg]

theorem sweepGo_adjacent (nparts nords : Nat) (wt : WinTy) (pt : VT)
    (input : List (List SVal)) (payload : List SVal) (levels : List (List SVal))
    (bsc bec : List SVal) (hwt : wt ≠ .row_number) :
    ∀ k fuel i st results,
      sweepGo ⟨nparts, nords, .unboundedPreceding, .unboundedFollowing, true, true⟩
          wt pt input payload levels bsc bec fuel i st = some results →
      k + 1 < fuel →
      equalsSubset (input.getD (i + k) []) (input.getD (i + k + 1) []) 0 nparts = true →
      results.get? k = results.get? (k + 1) := by
  intro k
  induction k with
  | zero =>
    intro fuel i st results hs hf hadj
    obtain ⟨f1, rfl⟩ : ∃ f1, fuel = f1 + 1 := ⟨fuel - 1, by omega⟩
    simp only [sweepGo, Option.bind_eq_bind, Option.bind_eq_some] at hs
    obtain ⟨res1, h1, hs⟩ := hs
    cases res1 with
    | error e => cases hs
    | ok st1 =>
      simp only [Option.bind_eq_some] at hs
      obtain ⟨v, hv, hs⟩ := hs
      simp only [Option.map_eq_some'] at hs
      obtain ⟨tl, htl, rfl⟩ := hs
      obtain ⟨f2, rfl⟩ : ∃ f2, f1 = f2 + 1 := ⟨f1 - 1, by omega⟩
      simp only [sweepGo, Option.bind_eq_bind, Option.bind_eq_some] at htl
      obtain ⟨res2, h2, htl⟩ := htl
      cases res2 with
      | error e => cases htl
      | ok st2 =>
        simp only [Option.bind_eq_some] at htl
        obtain ⟨v', hv', htl⟩ := htl
        simp only [Option.map_eq_some'] at htl
        obtain ⟨tl', htl', rfl⟩ := htl
        obtain ⟨hws1, hwe1, hrp1⟩ := uwb_unbounded_shape _ _ _ _ _ _ _ _ h1
        obtain ⟨hws2, hwe2, _⟩ := uwb_unbounded_shape _ _ _ _ _ _ _ _ h2
        have hsame : equalsSubset st1.row_prev (input.getD (i + 1) []) 0 nparts = true := by
          rw [hrp1]
          simpa using hadj
        obtain ⟨hp1, hp2⟩ := uwb_unbounded_same _ _ _ _ _ _ _ _ h2 (by omega) hsame
        have hvv : v = v' := by
          rw [hws1, hwe1] at hv
          rw [hws2, hwe2, hp1, hp2] at hv'
          rw [rowResult_row_irrelevant wt pt payload levels i (i + 1) _ _ hwt] at hv
          rw [hv] at hv'
          exact (Option.some.injEq _ _).mp hv'
        simp [hvv]
  | succ k ih =>
    intro fuel i st results hs hf hadj
    obtain ⟨f1, rfl⟩ : ∃ f1, fuel = f1 + 1 := ⟨fuel - 1, by omega⟩
    simp only [sweepGo, Option.bind_eq_bind, Option.bind_eq_some] at hs
    obtain ⟨res1, h1, hs⟩ := hs
    cases res1 with
    | error e => cases hs
    | ok st1 =>
      simp only [Option.bind_eq_some] at hs
      obtain ⟨v, hv, hs⟩ := hs
      simp only [Option.map_eq_some'] at hs
      obtain ⟨tl, htl, rfl⟩ := hs
      have := ih f1 (i + 1) st1 tl htl (by omega)
        (by
          have heq : i + 1 + k = i + (k + 1) := by omega
          rw [heq]
          simpa using hadj)
      simpa using this

/-- C5: for a window expression with frame
`UNBOUNDED PRECEDING .. UNBOUNDED FOLLOWING` and a frame-function window
type other than `ROW_NUMBER`, any two rows of the same partition (an
adjacent chain of rows whose partition columns compare equal) receive the
same result value: the boundaries resolve to
`(partition_start, partition_end)`, which the sweep recomputes only at a
partition change. -/
theorem unbounded_frame_same_partition_same_result
    (nparts nords : Nat) (wt : WinTy) (pt : VT) (input : List (List SVal))
    (payload bsc bec : List SVal) (results : List SVal)
    (hwt : wt ≠ .row_number)
    (hres : windowResults ⟨nparts, nords, .unboundedPreceding,
        .unboundedFollowing, true, true⟩ wt pt input payload bsc bec = some results)
    (i j : Nat) (hij : i ≤ j) (hj : j < input.length)
    (hrun : ∀ k, i ≤ k → k < j →
      equalsSubset (input.getD k []) (input.getD (k + 1) []) 0 nparts = true) :
    results.get? i = results.get? j := by
  obtain ⟨levels, hsweep⟩ : ∃ levels,
      sweepGo ⟨nparts, nords, .unboundedPreceding, .unboundedFollowing, true, true⟩
        wt pt input payload levels bsc bec input.length 0
        { row_prev := input.getD 0 [] } = some results := by
    unfold windowResults at hres
    cases hlv : (match wt with
      | .sum | .min | .max | .avg => construct wt pt 16 payload
      | _ => some ([] : List (List SVal))) with
    | none => rw [hlv] at hres; cases hres
    | some lv =>
      rw [hlv] at hres
      exact ⟨lv, hres⟩
  suffices h : ∀ d, i + d ≤ j → results.get? i = results.get? (i + d) by
    have := h (j - i) (by omega)
    rwa [show i + (j - i) = j by omega] at this
  intro d
  induction d with
  | zero => intro _; rfl
  | succ d ihd =>
    intro hd
    have hstep := sweepGo_adjacent nparts nords wt pt input payload levels bsc bec
      hwt (i + d) input.length 0 _ results hsweep (by omega)
      (by simpa using hrun (i + d) (by omega) (by omega))
    rw [ihd (by omega), show i + (d + 1) = i + d + 1 by omega]
    simpa using hstep

end DuckCore

namespace DuckCore

/-- Closed witness for `unbounded_frame_same_partition_same_result`:
`COUNT(*)` over partitions `{1,1},{2}` with the unbounded frame gives
`[2, 2, 1]`, and the two rows of the first partition receive the same
value. -/
theorem unbounded_frame_same_partition_same_result_witness :
    windowResults ⟨1, 0, .unboundedPreceding, .unboundedFollowing, true, true⟩
        .count_star .bigintT [[iv 1], [iv 1], [iv 2]] [] [] [] =
      some [iv 2, iv 2, iv 1] ∧
    ([iv 2, iv 2, iv 1] : List SVal).get? 0 = ([iv 2, iv 2, iv 1] : List SVal).get? 1 := by
  have hres : windowResults ⟨1, 0, .unboundedPreceding, .unboundedFollowing, true, true⟩
      .count_star .bigintT [[iv 1], [iv 1], [iv 2]] [] [] [] =
      some [iv 2, iv 2, iv 1] := by rfl
  refine ⟨hres, ?_⟩
  have := unbounded_frame_same_partition_same_result 1 0 .count_star .bigintT
    [[iv 1], [iv 1], [iv 2]] [] [] [] [iv 2, iv 2, iv 1]
    (by decide) hres 0 1 (by omega) (by simp)
    (fun k h1 h2 => by
      have hk : k = 0 := by omega
      subst hk
      rfl)
  exact this

end DuckCore

namespace DuckCore

/-- The ranking state of `ComputeWindowExpression`: `dense_rank`, `rank`,
`rank_equal` (`physical_window.cpp:286`). -/
structure RankState where
  dense_rank : Nat
  rank : Nat
  rank_equal : Nat
deriving DecidableEq, Repr

/-- The branch of the main loop that maintains the ranking state
(`physical_window.cpp:295-303`) for a row that is not the first
(`row_idx != 0`): re-initialize on a partition change, advance on a
non-peer row, keep the state on a peer row. -/
def branchR (same peer : Bool) (s : RankState) : RankState :=
  if !same then ⟨1, 1, 0⟩
  else if !peer then ⟨s.dense_rank + 1, s.rank + s.rank_equal, 0⟩
  else s

/-- The emission effect of the dispatch switch
(`physical_window.cpp:330-338`): `RANK` increments `rank_equal` after
emitting `rank`; `DENSE_RANK` emits `dense_rank` and changes nothing. -/
def emitR (isRank : Bool) (s : RankState) : RankState :=
  if isRank then { s with rank_equal := s.rank_equal + 1 } else s

/-- `is_same_partition` of row `i ≥ 1` against row `i - 1`
(`EqualsSubset` over the partition columns). -/
def samePartAt (nparts : Nat) (input : List (List SVal)) (i : Nat) : Bool :=
  equalsSubset (input.getD (i - 1) []) (input.getD i []) 0 nparts

/-- `is_peer` of row `i ≥ 1` against row `i - 1` (`is_same_partition` and
`EqualsSubset` over the ordering columns). -/
def isPeerAt (nparts nords : Nat) (input : List (List SVal)) (i : Nat) : Bool :=
  samePartAt nparts input i &&
    equalsSubset (input.getD (i - 1) []) (input.getD i []) nparts (nparts + nords)

/-- The ranking machine of the main loop, written as recursion over the row
index: the state after row `i`'s branch **and** emission.  Row 0 always
takes the initialization branch (`row_idx == 0`). -/
def stateAt (isRank : Bool) (nparts nords : Nat) (input : List (List SVal)) :
    Nat → RankState
  | 0 => emitR isRank ⟨1, 1, 0⟩
  | i + 1 =>
    emitR isRank
      (branchR (samePartAt nparts input (i + 1)) (isPeerAt nparts nords input (i + 1))
        (stateAt isRank nparts nords input i))

/-- The state after row `i`'s branch, before the emission: `RANK` emits its
`rank` field and `DENSE_RANK` its `dense_rank` field. -/
def branchAt (isRank : Bool) (nparts nords : Nat) (input : List (List SVal)) :
    Nat → RankState
  | 0 => ⟨1, 1, 0⟩
  | i + 1 =>
    branchR (samePartAt nparts input (i + 1)) (isPeerAt nparts nords input (i + 1))
      (stateAt isRank nparts nords input i)

/-- The length of the maximal adjacent-peer run ending at row `i`. -/
def pgl (nparts nords : Nat) (input : List (List SVal)) : Nat → Nat
  | 0 => 1
  | i + 1 => if isPeerAt nparts nords input (i + 1) then pgl nparts nords input i + 1 else 1

theorem stateAt_dense_false (nparts nords : Nat) (input : List (List SVal)) (i : Nat) :
    stateAt false nparts nords input i = branchAt false nparts nords input i := by
  cases i <;> simp [stateAt, branchAt, emitR]

theorem rank_machine_invariant (nparts nords : Nat) (input : List (List SVal)) (i : Nat) :
    (stateAt true nparts nords input i).rank_equal = pgl nparts nords input i ∧
    (stateAt true nparts nords input i).rank = (branchAt true nparts nords input i).rank ∧
    (stateAt true nparts nords input i).dense_rank =
      (branchAt true nparts nords input i).dense_rank := by
  induction i with
  | zero => simp [stateAt, branchAt, pgl, emitR]
  | succ i ih =>
    obtain ⟨h1, h2, h3⟩ := ih
    by_cases hpeer : isPeerAt nparts nords input (i + 1) = true
    · have hsame : samePartAt nparts input (i + 1) = true := by
        have := hpeer
        simp [isPeerAt] at this
        exact this.1
      simp [stateAt, branchAt, pgl, emitR, branchR, hpeer, hsame, h1]
    · by_cases hsame : samePartAt nparts input (i + 1) = true
      · simp [stateAt, branchAt, pgl, emitR, branchR, hpeer, hsame]
      · simp [stateAt, branchAt, pgl, emitR, branchR, hpeer, hsame]

/-- C4: the ranking machine.  Writing `R i` for the post-branch state of the
`RANK` machine at row `i` (which emits `(R i).rank`) and `D i` for that of
the `DENSE_RANK` machine (which emits `(D i).dense_rank`):
on the first row of a partition `dense_rank = rank = 1` and
`rank_equal = 0`; on a later non-peer row of the same partition
`dense_rank` grows by 1 and `rank` grows by the size of the peer group
ending at the previous row (`rank += rank_equal`, which the `RANK`
emissions have counted, then `rank_equal` resets); peer rows share both
`RANK` and `DENSE_RANK` values. -/
theorem ranking_state_machine (nparts nords : Nat) (input : List (List SVal)) :
    (∀ i, i = 0 ∨ samePartAt nparts input i = false →
       branchAt true nparts nords input i = ⟨1, 1, 0⟩ ∧
       branchAt false nparts nords input i = ⟨1, 1, 0⟩) ∧
    (∀ i, 0 < i → samePartAt nparts input i = true →
       isPeerAt nparts nords input i = false →
       (branchAt true nparts nords input i).dense_rank =
         (branchAt true nparts nords input (i - 1)).dense_rank + 1 ∧
       (branchAt true nparts nords input i).rank =
         (branchAt true nparts nords input (i - 1)).rank +
           pgl nparts nords input (i - 1) ∧
       (branchAt true nparts nords input i).rank_equal = 0 ∧
       (branchAt false nparts nords input i).dense_rank =
         (branchAt false nparts nords input (i - 1)).dense_rank + 1) ∧
    (∀ i, 0 < i → isPeerAt nparts nords input i = true →
       (branchAt true nparts nords input i).rank =
         (branchAt true nparts nords input (i - 1)).rank ∧
       (branchAt false nparts nords input i).dense_rank =
         (branchAt false nparts nords input (i - 1)).dense_rank) := by
  refine ⟨?_, ?_, ?_⟩
  · intro i hi
    rcases hi with rfl | hsame
    · exact ⟨rfl, rfl⟩
    · cases i with
      | zero => exact ⟨rfl, rfl⟩
      | succ k => simp [branchAt, branchR, hsame]
  · intro i hi hsame hpeer
    obtain ⟨k, rfl⟩ : ∃ k, i = k + 1 := ⟨i - 1, by omega⟩
    obtain ⟨h1, h2, h3⟩ := rank_machine_invariant nparts nords input k
    simp only [Nat.add_sub_cancel]
    refine ⟨?_, ?_, ?_, ?_⟩
    · simp [branchAt, branchR, hsame, hpeer, h3]
    · simp [branchAt, branchR, hsame, hpeer, h1, h2]
    · simp [branchAt, branchR, hsame, hpeer]
    · have hb : branchAt false nparts nords input (k + 1) =
          branchR (samePartAt nparts input (k + 1)) (isPeerAt nparts nords input (k + 1))
            (stateAt false nparts nords input k) := rfl
      rw [stateAt_dense_false] at hb
      rw [hb]
      simp [branchR, hsame, hpeer]
  · intro i hi hpeer
    obtain ⟨k, rfl⟩ : ∃ k, i = k + 1 := ⟨i - 1, by omega⟩
    have hsame : samePartAt nparts input (k + 1) = true := by
      have := hpeer
      simp [isPeerAt] at this
      exact this.1
    obtain ⟨h1, h2, h3⟩ := rank_machine_invariant nparts nords input k
    simp only [Nat.add_sub_cancel]
    constructor
    · simp [branchAt, branchR, hsame, hpeer, h2]
    · have hb : branchAt false nparts nords input (k + 1) =
          branchR (samePartAt nparts input (k + 1)) (isPeerAt nparts nords input (k + 1))
            (stateAt false nparts nords input k) := rfl
      rw [stateAt_dense_false] at hb
      rw [hb]
      simp [branchR, hsame, hpeer]

/-- Closed witness for `ranking_state_machine` on the spec's boundary
scenario `(A,10),(A,20),(A,20),(B,5)`: rows 1 and 2 are peers and share
`RANK = 2`, and row 3 opens a new partition with `RANK = DENSE_RANK = 1`. -/
theorem ranking_state_machine_witness :
    (branchAt true 1 1 [[iv 1, iv 10], [iv 1, iv 20], [iv 1, iv 20], [iv 2, iv 5]] 2).rank =
      (branchAt true 1 1 [[iv 1, iv 10], [iv 1, iv 20], [iv 1, iv 20], [iv 2, iv 5]] 1).rank ∧
    branchAt true 1 1 [[iv 1, iv 10], [iv 1, iv 20], [iv 1, iv 20], [iv 2, iv 5]] 3 =
      ⟨1, 1, 0⟩ := by
  constructor
  · exact ((ranking_state_machine 1 1
      [[iv 1, iv 10], [iv 1, iv 20], [iv 1, iv 20], [iv 2, iv 5]]).2.2 2
      (by omega) (by decide)).1
  · exact ((ranking_state_machine 1 1
      [[iv 1, iv 10], [iv 1, iv 20], [iv 1, iv 20], [iv 2, iv 5]]).1 3
      (Or.inr (by decide))).1

end DuckCore

namespace DuckCore

mutual

theorem cexprEq_iff : ∀ a b : CExpr, cexprEq a b = true ↔ a = b
  | .colref i, .colref j => by simp [cexprEq]
  | .cst v, .cst w => by simp [cexprEq]
  | .cmp o1 l1 r1, .cmp o2 l2 r2 => by
    simp [cexprEq, cexprEq_iff l1 l2, cexprEq_iff r1 r2]
    tauto
  | .between i1 lo1 hi1 a1 b1, .between i2 lo2 hi2 a2 b2 => by
    simp [cexprEq, cexprEq_iff i1 i2, cexprEq_iff lo1 lo2, cexprEq_iff hi1 hi2]
    tauto
  | .func n1 c1, .func n2 c2 => by
    simp [cexprEq, cexprEqList_iff c1 c2]
  | .inOp c1, .inOp c2 => by
    simp [cexprEq, cexprEqList_iff c1 c2]
  | .other t1, .other t2 => by simp [cexprEq]
  | .colref _, .cst _ => by simp [cexprEq]
  | .colref _, .cmp _ _ _ => by simp [cexprEq]
  | .colref _, .between _ _ _ _ _ => by simp [cexprEq]
  | .colref _, .func _ _ => by simp [cexprEq]
  | .colref _, .inOp _ => by simp [cexprEq]
  | .colref _, .other _ => by simp [cexprEq]
  | .cst _, .colref _ => by simp [cexprEq]
  | .cst _, .cmp _ _ _ => by simp [cexprEq]
  | .cst _, .between _ _ _ _ _ => by simp [cexprEq]
  | .cst _, .func _ _ => by simp [cexprEq]
  | .cst _, .inOp _ => by simp [cexprEq]
  | .cst _, .other _ => by simp [cexprEq]
  | .cmp _ _ _, .colref _ => by simp [cexprEq]
  | .cmp _ _ _, .cst _ => by simp [cexprEq]
  | .cmp _ _ _, .between _ _ _ _ _ => by simp [cexprEq]
  | .cmp _ _ _, .func _ _ => by simp [cexprEq]
  | .cmp _ _ _, .inOp _ => by simp [cexprEq]
  | .cmp _ _ _, .other _ => by simp [cexprEq]
  | .between _ _ _ _ _, .colref _ => by simp [cexprEq]
  | .between _ _ _ _ _, .cst _ => by simp [cexprEq]
  | .between _ _ _ _ _, .cmp _ _ _ => by simp [cexprEq]
  | .between _ _ _ _ _, .func _ _ => by simp [cexprEq]
  | .between _ _ _ _ _, .inOp _ => by simp [cexprEq]
  | .between _ _ _ _ _, .other _ => by simp [cexprEq]
  | .func _ _, .colref _ => by simp [cexprEq]
  | .func _ _, .cst _ => by simp [cexprEq]
  | .func _ _, .cmp _ _ _ => by simp [cexprEq]
  | .func _ _, .between _ _ _ _ _ => by simp [cexprEq]
  | .func _ _, .inOp _ => by simp [cexprEq]
  | .func _ _, .other _ => by simp [cexprEq]
  | .inOp _, .colref _ => by simp [cexprEq]
  | .inOp _, .cst _ => by simp [cexprEq]
  | .inOp _, .cmp _ _ _ => by simp [cexprEq]
  | .inOp _, .between _ _ _ _ _ => by simp [cexprEq]
  | .inOp _, .func _ _ => by simp [cexprEq]
  | .inOp _, .other _ => by simp [cexprEq]
  | .other _, .colref _ => by simp [cexprEq]
  | .other _, .cst _ => by simp [cexprEq]
  | .other _, .cmp _ _ _ => by simp [cexprEq]
  | .other _, .between _ _ _ _ _ => by simp [cexprEq]
  | .other _, .func _ _ => by simp [cexprEq]
  | .other _, .inOp _ => by simp [cexprEq]

theorem cexprEqList_iff : ∀ a b : List CExpr, cexprEqList a b = true ↔ a = b
  | [], [] => by simp [cexprEqList]
  | [], _ :: _ => by simp [cexprEqList]
  | _ :: _, [] => by simp [cexprEqList]
  | a :: as_, b :: bs => by
    simp [cexprEqList, cexprEq_iff a b, cexprEqList_iff as_ bs]

end

instance : DecidableEq CExpr := fun a b =>
  decidable_of_iff (cexprEq a b = true) (cexprEq_iff a b)

end DuckCore

namespace DuckCore

/-- Boolean TRUE value. -/
def bTrue : SVal := ⟨.boolT, false, 1, []⟩

/-- Boolean FALSE value. -/
def bFalse : SVal := ⟨.boolT, false, 0, []⟩

/-- Boolean NULL value. -/
def bNull : SVal := ⟨.boolT, true, 0, []⟩

/-- Three-valued comparison: NULL when either operand is NULL, the Boolean
comparison result otherwise (modelled from the spec's NULL rules). -/
def cmp3 (op : CmpOp) (a b : SVal) : SVal :=
  if a.is_null || b.is_null then bNull else if cmpv op a b then bTrue else bFalse

/-- Three-valued AND: FALSE dominates NULL. -/
def and3 (a b : SVal) : SVal :=
  if (!a.is_null && a.ival = 0) || (!b.is_null && b.ival = 0) then bFalse
  else if a.is_null || b.is_null then bNull
  else bTrue

/-- Three-valued OR: TRUE dominates NULL. -/
def or3 (a b : SVal) : SVal :=
  if (!a.is_null && decide (a.ival ≠ 0)) || (!b.is_null && decide (b.ival ≠ 0)) then bTrue
  else if a.is_null || b.is_null then bNull
  else bFalse

/-- An assignment of values to the non-scalar expressions (column
references, functions, and opaque leaves). -/
def Env : Type := CExpr → SVal

mutual

/-- Evaluation of an embedded predicate expression under an assignment:
constants evaluate to themselves, composite shapes evaluate structurally
with SQL three-valued logic, and non-scalar leaves take the assignment's
value.  (Modelled from the spec's expression-evaluation contract.) -/
def evalE (env : Env) : CExpr → SVal
  | .colref i => env (.colref i)
  | .other t => env (.other t)
  | .func n cs => env (.func n cs)
  | .cst v => v
  | .cmp op l r => cmp3 op (evalE env l) (evalE env r)
  | .between inp lo hi li ui =>
      and3 (cmp3 (if li then .le else .lt) (evalE env lo) (evalE env inp))
        (cmp3 (if ui then .le else .lt) (evalE env inp) (evalE env hi))
  | .inOp [] => bFalse
  | .inOp (x :: cs) => evalInList env (evalE env x) cs

/-- `x IN (c1, …)` as the three-valued disjunction of equalities. -/
def evalInList (env : Env) (v : SVal) : List CExpr → SVal
  | [] => bFalse
  | c :: rest => or3 (cmp3 .eq v (evalE env c)) (evalInList env v rest)

end

/-- A predicate is satisfied when it evaluates to a non-NULL non-zero
value (SQL filter semantics: NULL does not satisfy). -/
def satB (env : Env) (e : CExpr) : Bool :=
  !(evalE env e).is_null && decide ((evalE env e).ival ≠ 0)

/-- The empty assignment used to evaluate foldable expressions. -/
def defaultEnv : Env := fun _ => dfltVal

/-- `ExpressionExecutor::EvaluateScalar`: defined only on foldable
expressions (the source asserts foldability). -/
def evalScalar (e : CExpr) : Option SVal :=
  if isFoldable e then some (evalE defaultEnv e) else none

theorem evalE_foldable_env : ∀ (e : CExpr), isFoldable e = true →
    ∀ env env' : Env, evalE env e = evalE env' e
  | .colref _ => by simp [isFoldable]
  | .cst _ => fun _ _ _ => rfl
  | .cmp op l r => by
    intro hf env env'
    simp only [isFoldable, Bool.and_eq_true] at hf
    simp only [evalE, evalE_foldable_env l hf.1 env env',
      evalE_foldable_env r hf.2 env env']
  | .between inp lo hi li ui => by
    intro hf env env'
    simp only [isFoldable, Bool.and_eq_true] at hf
    simp only [evalE, evalE_foldable_env inp hf.1.1 env env',
      evalE_foldable_env lo hf.1.2 env env', evalE_foldable_env hi hf.2 env env']
  | .func _ _ => by simp [isFoldable]
  | .inOp _ => by simp [isFoldable]
  | .other _ => by simp [isFoldable]

end DuckCore

namespace DuckCore

/-- `duckdb::FilterResult`. -/
inductive FilterResult where
  | SUCCESS
  | UNSATISFIABLE
  | UNSUPPORTED
deriving DecidableEq, Repr

/-- The `FilterCombiner` state (`filter_combiner.hpp`, per the spec's data
model): interned expressions, the equivalence-set maps, the per-set constant
bounds, and the residual filters.  Pointer identity of the source becomes
structural identity (the spec tolerates either interning granularity);
hash-map iteration order becomes list order. -/
structure CState where
  set_index : Nat := 0
  stored_expressions : List CExpr := []
  equivalence_set_map : List (CExpr × Nat) := []
  equivalence_map : List (Nat × List CExpr) := []
  constant_values : List (Nat × List EVI) := []
  remaining_filters : List CExpr := []

/-- Association-list lookup keyed by `Nat` (`unordered_map::find`). -/
def alookupN {α : Type} : List (Nat × α) → Nat → Option α
  | [], _ => none
  | (k, v) :: rest, k' => if k = k' then some v else alookupN rest k'

/-- Association-list in-place update of the first matching key. -/
def aupdateN {α : Type} : List (Nat × α) → Nat → α → List (Nat × α)
  | [], _, _ => []
  | (k, v) :: rest, k', v' =>
      if k = k' then (k, v') :: rest else (k, v) :: aupdateN rest k' v'

/-- Association-list lookup keyed by expression (structural `Equals`). -/
def alookupE : List (CExpr × Nat) → CExpr → Option Nat
  | [], _ => none
  | (k, v) :: rest, e => if cexprEq k e then some v else alookupE rest e

/-- `FilterCombiner::GetNode` (`filter_combiner.cpp:21-33`): intern an
expression; with structural interning the returned node is the expression
itself. -/
def getNode (s : CState) (e : CExpr) : CExpr × CState :=
  if s.stored_expressions.any (fun x => cexprEq x e) then (e, s)
  else (e, { s with stored_expressions := e :: s.stored_expressions })

/-- `FilterCombiner::GetEquivalenceSet` (`filter_combiner.cpp:35-49`):
the set id of a stored node, creating a fresh singleton set with an empty
constant list when none exists. -/
def getEquivalenceSet (s : CState) (e : CExpr) : Nat × CState :=
  match alookupE s.equivalence_set_map e with
  | some idx => (idx, s)
  | none =>
    let idx := s.set_index
    (idx,
      { s with
          set_index := idx + 1
          equivalence_set_map := (e, idx) :: s.equivalence_set_map
          equivalence_map := (idx, [e]) :: s.equivalence_map
          constant_values := (idx, []) :: s.constant_values })

/-- `FilterCombiner::AddConstantComparison` (`filter_combiner.cpp:51-75`):
fold a new constant bound into a bound list, pruning per
`CompareValueInformation`; returns the filter result and the updated list
(on `PRUNE_RIGHT` and `UNSATISFIABLE` the remaining entries are kept
as-is, on `PRUNE_LEFT` the existing entry is erased). -/
def addConstantComparison : List EVI → EVI → FilterResult × List EVI
  | [], info => (.SUCCESS, [info])
  | x :: xs, info =>
    match cvi x info with
    | .PRUNE_LEFT => addConstantComparison xs info
    | .PRUNE_RIGHT => (.SUCCESS, x :: xs)
    | .UNSATISFIABLE_CONDITION => (.UNSATISFIABLE, x :: xs)
    | .PRUNE_NOTHING =>
      let r := addConstantComparison xs info
      (r.1, x :: r.2)

/-- The scan of `FilterCombiner::FindTransitiveFilter`
(`filter_combiner.cpp:681-696`): find and remove the first residual bound
comparison whose right operand equals the expression (skipping `!=`). -/
def ftfScan (e : CExpr) : List CExpr → Option (CExpr × List CExpr)
  | [] => none
  | f :: rest =>
    match f with
    | .cmp op _ r =>
      if op ≠ .neq && cexprEq r e then some (f, rest)
      else (ftfScan e rest).map (fun p => (p.1, f :: p.2))
    | _ => (ftfScan e rest).map (fun p => (p.1, f :: p.2))

/-- `FilterCombiner::FindTransitiveFilter`: only bound column references are
searched for. -/
def findTransitiveFilter (s : CState) (e : CExpr) : Option CExpr × CState :=
  match e with
  | .colref _ =>
    match ftfScan e s.remaining_filters with
    | some (f, rest) => (some f, { s with remaining_filters := rest })
    | none => (none, s)
  | _ => (none, s)

/-- The accumulator of the `AddTransitiveFilters` loop: the (live) left
constant list, the residual filters, the `isInserted` and `isSuccessful`
flags. -/
structure AtfAcc where
  lcs : List EVI
  rem : List CExpr
  ins : Bool
  suc : Bool

/-- The derivation loop of `FilterCombiner::AddTransitiveFilters`
(`filter_combiner.cpp:611-659`): for each constant bound of the right set,
derive a bound for the left side (per the `=`, `>=`/`<=` and `>`/`<`
rules), push the comparison into the residual filters once when required,
and fold the derived bound into the left constant list; stops with `true`
on `UNSATISFIABLE`. -/
def atfLoop (op : CmpOp) (lhs rhs : CExpr) : List EVI → AtfAcc → Bool × AtfAcc
  | [], acc => (false, acc)
  | rc :: rest, acc =>
    if rc.comparison_type = .eq then
      let r := addConstantComparison acc.lcs ⟨op, rc.constant⟩
      if r.1 = .UNSATISFIABLE then (true, { acc with lcs := r.2 })
      else atfLoop op lhs rhs rest { acc with lcs := r.2, suc := true }
    else if (op = .ge && isGreaterThanOp rc.comparison_type) ||
        (op = .le && isLessThanOp rc.comparison_type) then
      let acc1 := if acc.ins then acc
        else { acc with rem := acc.rem ++ [.cmp op lhs rhs], ins := true }
      let r := addConstantComparison acc1.lcs ⟨rc.comparison_type, rc.constant⟩
      if r.1 = .UNSATISFIABLE then (true, { acc1 with lcs := r.2 })
      else atfLoop op lhs rhs rest { acc1 with lcs := r.2, suc := true }
    else if (op = .gt && isGreaterThanOp rc.comparison_type) ||
        (op = .lt && isLessThanOp rc.comparison_type) then
      let acc1 := if acc.ins then acc
        else { acc with rem := acc.rem ++ [.cmp op lhs rhs], ins := true }
      let r := addConstantComparison acc1.lcs ⟨op, rc.constant⟩
      if r.1 = .UNSATISFIABLE then (true, { acc1 with lcs := r.2 })
      else atfLoop op lhs rhs rest { acc1 with lcs := r.2, suc := true }
    else
      atfLoop op lhs rhs rest acc

/-- `FilterCombiner::AddTransitiveFilters` (`filter_combiner.cpp:588-674`),
with fuel for the recursion through `FindTransitiveFilter` (whose pulled
filter is consumed from the residual list); `none` models fuel exhaustion
or an assertion failure — never a produced answer. -/
def addTransitiveFilters : Nat → CState → CmpOp → CExpr → CExpr →
    Option (FilterResult × CState)
  | 0, _, _, _, _ => none
  | fuel + 1, s, op, lhs, rhs =>
    if ¬ (isGreaterThanOp op || isLessThanOp op) then none
    else
      let g1 := getNode s lhs
      let g2 := getNode g1.2 rhs
      if cexprEq g1.1 g2.1 then some (.UNSUPPORTED, g2.2)
      else
        let e1 := getEquivalenceSet g2.2 g1.1
        let e2 := getEquivalenceSet e1.2 g2.1
        if e1.1 = e2.1 then some (.SUCCESS, e2.2)
        else
          match alookupN e2.2.constant_values e1.1,
              alookupN e2.2.constant_values e2.1 with
          | some left_constants, some right_constants =>
            let lr := atfLoop op lhs rhs right_constants
              ⟨left_constants, e2.2.remaining_filters, false, false⟩
            let s5 : CState :=
              { e2.2 with
                  constant_values := aupdateN e2.2.constant_values e1.1 lr.2.lcs
                  remaining_filters := lr.2.rem }
            if lr.1 then some (.UNSATISFIABLE, s5)
            else if lr.2.suc then
              match findTransitiveFilter s5 lhs with
              | (some tf, s6) =>
                match tf with
                | .cmp top tl tr =>
                  match addTransitiveFilters fuel s6 top tl tr with
                  | none => none
                  | some (.UNSUPPORTED, s7) =>
                    some (.SUCCESS,
                      { s7 with remaining_filters := s7.remaining_filters ++ [tf] })
                  | some (_, s7) => some (.SUCCESS, s7)
                | _ => none
              | (none, s6) => some (.SUCCESS, s6)
            else some (.UNSUPPORTED, s5)
          | _, _ => none

end DuckCore

namespace DuckCore

/-- The constant-merge loop of the equality case of
`AddBoundComparisonFilter` (`filter_combiner.cpp:509-513`): fold every
right-set bound into the left list, stopping with `true` on
`UNSATISFIABLE`. -/
def mergeConsts : List EVI → List EVI → Bool × List EVI
  | [], lcs => (false, lcs)
  | rc :: rest, lcs =>
    let r := addConstantComparison lcs rc
    if r.1 = .UNSATISFIABLE then (true, r.2) else mergeConsts rest r.2

/-- `FilterCombiner::AddBoundComparisonFilter`
(`filter_combiner.cpp:428-516`).  The six-operator guard of the source is
total here because `CmpOp` has exactly those operators.  The scalar case
canonicalizes the non-scalar side, folds the (possibly flipped) constant
bound, then attempts a transitive derivation from a matching residual
filter; the equality case merges the two equivalence sets; the inequality
case runs `AddTransitiveFilters`. -/
def addBoundComparisonFilter (fuel : Nat) (s : CState) (op : CmpOp)
    (l r : CExpr) : Option (FilterResult × CState) :=
  let left_is_scalar := isFoldable l
  let right_is_scalar := isFoldable r
  if left_is_scalar || right_is_scalar then
    let g := getNode s (if left_is_scalar then r else l)
    let e := getEquivalenceSet g.2 g.1
    match evalScalar (if left_is_scalar then l else r) with
    | none => none
    | some constant_value =>
      let info : EVI := ⟨if left_is_scalar then flipCmp op else op, constant_value⟩
      match alookupN e.2.constant_values e.1 with
      | none => none
      | some info_list =>
        let r1 := addConstantComparison info_list info
        let s3 : CState :=
          { e.2 with constant_values := aupdateN e.2.constant_values e.1 r1.2 }
        match findTransitiveFilter s3 (if left_is_scalar then r else l) with
        | (some tf, s4) =>
          match tf with
          | .cmp top tl tr =>
            match addTransitiveFilters fuel s4 top tl tr with
            | none => none
            | some (.UNSUPPORTED, s5) =>
              some (r1.1, { s5 with remaining_filters := s5.remaining_filters ++ [tf] })
            | some (_, s5) => some (r1.1, s5)
          | _ => none
        | (none, s4) => some (r1.1, s4)
  else
    if op ≠ .eq then
      if isGreaterThanOp op || isLessThanOp op then addTransitiveFilters fuel s op l r
      else some (.UNSUPPORTED, s)
    else
      let g1 := getNode s l
      let g2 := getNode g1.2 r
      if cexprEq g1.1 g2.1 then some (.UNSUPPORTED, g2.2)
      else
        let e1 := getEquivalenceSet g2.2 g1.1
        let e2 := getEquivalenceSet e1.2 g2.1
        if e1.1 = e2.1 then some (.SUCCESS, e2.2)
        else
          match alookupN e2.2.equivalence_map e1.1,
              alookupN e2.2.equivalence_map e2.1 with
          | some left_bucket, some right_bucket =>
            let esm' := e2.2.equivalence_set_map.map
              (fun p => if p.1 ∈ right_bucket then (p.1, e1.1) else p)
            let em' := aupdateN e2.2.equivalence_map e1.1 (left_bucket ++ right_bucket)
            match alookupN e2.2.constant_values e1.1,
                alookupN e2.2.constant_values e2.1 with
            | some lcb, some rcb =>
              let m := mergeConsts rcb lcb
              let s' : CState :=
                { e2.2 with
                    equivalence_set_map := esm'
                    equivalence_map := em'
                    constant_values := aupdateN e2.2.constant_values e1.1 m.2 }
              if m.1 then some (.UNSATISFIABLE, s') else some (.SUCCESS, s')
            | _, _ => none
          | _, _ => none

/-- `FilterCombiner::AddFilter(Expression *)` (`filter_combiner.cpp:518-582`):
foldable predicates are evaluated (NULL or false means `UNSATISFIABLE`),
a `BETWEEN` with a foldable bound turns into two constant comparisons on
its input (the result of folding the lower bound is discarded by the
source), bound comparisons go to `AddBoundComparisonFilter`, everything
else is `UNSUPPORTED`.  (Parameter-carrying expressions, which the source
rejects as `UNSUPPORTED`, are subsumed by the opaque leaves here.) -/
def addFilterInner (fuel : Nat) (s : CState) (e : CExpr) :
    Option (FilterResult × CState) :=
  if isFoldable e then
    let v := evalE defaultEnv e
    if v.is_null || v.ival = 0 then some (.UNSATISFIABLE, s)
    else some (.SUCCESS, s)
  else
    match e with
    | .between inp lo hi li ui =>
      if isFoldable lo || isFoldable hi then
        let g := getNode s inp
        let es := getEquivalenceSet g.2 g.1
        match evalScalar lo with
        | none => none
        | some clo =>
          let info1 : EVI := ⟨if li then .ge else .gt, clo⟩
          match alookupN es.2.constant_values es.1 with
          | none => none
          | some lst =>
            let r1 := addConstantComparison lst info1
            let s3 : CState :=
              { es.2 with constant_values := aupdateN es.2.constant_values es.1 r1.2 }
            match evalScalar hi with
            | none => none
            | some chi =>
              let info2 : EVI := ⟨if ui then .le else .lt, chi⟩
              match alookupN s3.constant_values es.1 with
              | none => none
              | some lst2 =>
                let r2 := addConstantComparison lst2 info2
                some (r2.1,
                  { s3 with constant_values := aupdateN s3.constant_values es.1 r2.2 })
      else some (.UNSUPPORTED, s)
    | .cmp op l r => addBoundComparisonFilter fuel s op l r
    | _ => some (.UNSUPPORTED, s)

/-- `FilterCombiner::AddFilter(unique_ptr<Expression>)`
(`filter_combiner.cpp:77-86`): an `UNSUPPORTED` predicate is pushed into
the residual filters and reported as `SUCCESS`. -/
def addFilter (fuel : Nat) (s : CState) (e : CExpr) :
    Option (FilterResult × CState) :=
  (addFilterInner fuel s e).map fun rs =>
    if rs.1 = .UNSUPPORTED then
      (.SUCCESS, { rs.2 with remaining_filters := rs.2.remaining_filters ++ [e] })
    else rs

/-- Feed a sequence of predicates to `AddFilter`, stopping at the first
`UNSATISFIABLE`. -/
def runFilters (fuel : Nat) : List CExpr → CState → Option (FilterResult × CState)
  | [], s => some (.SUCCESS, s)
  | e :: rest, s =>
    (addFilter fuel s e).bind fun rs =>
      match rs.1 with
      | .UNSATISFIABLE => some (.UNSATISFIABLE, rs.2)
      | _ => runFilters fuel rest rs.2

end DuckCore

namespace DuckCore

/-- A constant bound holds of a value when the three-valued comparison is
TRUE. -/
def holdsV (i : EVI) (v : SVal) : Prop := cmp3 i.comparison_type v i.constant = bTrue

theorem holdsV_iff (i : EVI) (v : SVal) :
    holdsV i v ↔ (v.is_null = false ∧ i.constant.is_null = false ∧
      cmpv i.comparison_type v i.constant = true) := by
  unfold holdsV cmp3
  by_cases h : (v.is_null || i.constant.is_null) = true
  · rw [if_pos h]
    simp only [Bool.or_eq_true] at h
    constructor
    · intro hc
      simp [bNull, bTrue] at hc
    · rintro ⟨hv, hc, -⟩
      rcases h with h | h
      · rw [hv] at h; cases h
      · rw [hc] at h; cases h
  · rw [if_neg h]
    simp only [Bool.or_eq_true, not_or, Bool.not_eq_true] at h
    cases hc : cmpv i.comparison_type v i.constant
    · rw [if_neg (by simp [hc])]
      simp [bFalse, bTrue, hc]
    · rw [if_pos (by simp [hc])]
      simp [bTrue, h.1, h.2]

end DuckCore

namespace DuckCore

theorem invertVCR_unsat (x : ValueComparisonResult) :
    invertVCR x = .UNSATISFIABLE_CONDITION ↔ x = .UNSATISFIABLE_CONDITION := by
  cases x <;> simp [invertVCR]

theorem cviLeftEq_unsat (a b : EVI) (ha : a.comparison_type = .eq)
    (h : cviLeftEq a b = .UNSATISFIABLE_CONDITION) (v : SVal) :
    ¬ (holdsV a v ∧ holdsV b v) := by
  rintro ⟨h1, h2⟩
  rw [holdsV_iff] at h1 h2
  obtain ⟨hv, hca, hc1⟩ := h1
  obtain ⟨-, hcb, hc2⟩ := h2
  rw [ha] at hc1
  simp only [cmpv, veq, hv, hca, Bool.not_false, Bool.and_eq_true,
    decide_eq_true_eq, true_and] at hc1
  cases hb : b.comparison_type <;> rw [hb] at hc2 <;>
    simp only [cviLeftEq, hb] at h <;>
      (split at h
       · exact ValueComparisonResult.noConfusion h
       · rename_i hpr
         simp only [cmpv, vlt, vle, vgt, vge, veq, vne, hv, hca, hcb, Bool.not_false,
           Bool.and_eq_true, Bool.not_eq_true, decide_eq_true_eq, true_and,
           Bool.true_and, Bool.not_eq_true', Bool.and_eq_false_iff,
           decide_eq_false_iff_not, Bool.not_true, Bool.false_and] at hpr hc2
         omega)

end DuckCore

namespace DuckCore

theorem cviLtGt_unsat (a b : EVI) (hla : isLessThanOp a.comparison_type = true)
    (hgb : isGreaterThanOp b.comparison_type = true)
    (h : cviLtGt a b = .UNSATISFIABLE_CONDITION) (v : SVal) :
    ¬ (holdsV a v ∧ holdsV b v) := by
  rintro ⟨h1, h2⟩
  rw [holdsV_iff] at h1 h2
  obtain ⟨hv, hca, hc1⟩ := h1
  obtain ⟨-, hcb, hc2⟩ := h2
  unfold cviLtGt at h
  split at h
  · exact ValueComparisonResult.noConfusion h
  · rename_i hpr
    simp only [vge, vle, hca, hcb, Bool.not_false, Bool.and_eq_true, Bool.not_eq_true,
      decide_eq_true_eq, true_and, Bool.true_and, Bool.not_eq_true',
      Bool.and_eq_false_iff, decide_eq_false_iff_not] at hpr
    rcases (by cases ha : a.comparison_type <;> simp_all [isLessThanOp] :
        a.comparison_type = .lt ∨ a.comparison_type = .le) with ha | ha <;>
      rcases (by cases hbb : b.comparison_type <;> simp_all [isGreaterThanOp] :
          b.comparison_type = .gt ∨ b.comparison_type = .ge) with hbb | hbb <;>
        rw [ha] at hc1 <;> rw [hbb] at hc2 <;>
          simp only [cmpv, vlt, vle, vgt, vge, hv, hca, hcb, Bool.not_false,
            Bool.and_eq_true, decide_eq_true_eq, true_and] at hc1 hc2 <;>
            omega

theorem cviLeftNeq_not_unsat (a b : EVI) :
    cviLeftNeq a b ≠ .UNSATISFIABLE_CONDITION := by
  unfold cviLeftNeq
  split <;> (simp only []; split <;> simp)

theorem cviBothGt_not_unsat (a b : EVI) :
    cviBothGt a b ≠ .UNSATISFIABLE_CONDITION := by
  unfold cviBothGt
  split
  · simp
  · split
    · simp
    · split <;> simp

theorem cviBothLt_not_unsat (a b : EVI) :
    cviBothLt a b ≠ .UNSATISFIABLE_CONDITION := by
  unfold cviBothLt
  split
  · simp
  · split
    · simp
    · split <;> simp

/-- If `CompareValueInformation` declares two bounds unsatisfiable, no value
satisfies both. -/
theorem cvi_unsat_sound (a b : EVI)
    (h : cvi a b = .UNSATISFIABLE_CONDITION) (v : SVal) :
    ¬ (holdsV a v ∧ holdsV b v) := by
  unfold cvi at h
  split at h
  · exact cviLeftEq_unsat a b (by assumption) h v
  · split at h
    · rw [invertVCR_unsat] at h
      intro hc
      exact cviLeftEq_unsat b a (by assumption) h v ⟨hc.2, hc.1⟩
    · split at h
      · exact absurd h (cviLeftNeq_not_unsat a b)
      · split at h
        · rw [invertVCR_unsat] at h
          exact absurd h (cviLeftNeq_not_unsat b a)
        · split at h
          · exact absurd h (cviBothGt_not_unsat a b)
          · split at h
            · exact absurd h (cviBothLt_not_unsat a b)
            · split at h
              · rename_i hne hrne hgg hll hl
                have hgb : isGreaterThanOp b.comparison_type = true := by
                  rcases hb : b.comparison_type <;>
                    simp_all [isGreaterThanOp, isLessThanOp]
                exact cviLtGt_unsat a b hl hgb h v
              · rename_i hne hrne hgg hll hl
                rw [invertVCR_unsat] at h
                have hga : isGreaterThanOp a.comparison_type = true := by
                  rcases ha : a.comparison_type <;>
                    simp_all [isGreaterThanOp, isLessThanOp]
                have hlb : isLessThanOp b.comparison_type = true := by
                  rcases hb : b.comparison_type <;>
                    simp_all [isGreaterThanOp, isLessThanOp]
                intro hc
                exact cviLtGt_unsat b a hlb hga h v ⟨hc.2, hc.1⟩

end DuckCore

namespace DuckCore

/-- Two values with the same NULL flag and integer key: the satisfaction of
a constant bound depends only on these. -/
def valKeyEq (v w : SVal) : Prop := v.is_null = w.is_null ∧ v.ival = w.ival

theorem valKeyEq_refl (v : SVal) : valKeyEq v v := ⟨rfl, rfl⟩

theorem valKeyEq_symm {v w : SVal} (h : valKeyEq v w) : valKeyEq w v :=
  ⟨h.1.symm, h.2.symm⟩

theorem valKeyEq_trans {u v w : SVal} (h1 : valKeyEq u v) (h2 : valKeyEq v w) :
    valKeyEq u w := ⟨h1.1.trans h2.1, h1.2.trans h2.2⟩

theorem cmpv_key (op : CmpOp) {v w : SVal} (c : SVal) (h : valKeyEq v w) :
    cmpv op v c = cmpv op w c := by
  obtain ⟨h1, h2⟩ := h
  cases op <;> simp [cmpv, vlt, vle, vgt, vge, veq, vne, h1, h2]

theorem holdsV_key (i : EVI) {v w : SVal} (h : valKeyEq v w) :
    holdsV i v ↔ holdsV i w := by
  rw [holdsV_iff, holdsV_iff, h.1, cmpv_key i.comparison_type i.constant h]

/-- The semantic invariant of a combiner state under one assignment: every
recorded constant bound holds of every member of its set, members of one
set agree on (NULL flag, integer key), and every residual filter is
satisfied. -/
structure ImpliedSt (env : Env) (s : CState) : Prop where
  bounds : ∀ id ms cs, alookupN s.equivalence_map id = some ms →
    alookupN s.constant_values id = some cs →
    ∀ m ∈ ms, ∀ i ∈ cs, holdsV i (evalE env m)
  members : ∀ id ms, alookupN s.equivalence_map id = some ms →
    ∀ m ∈ ms, ∀ m' ∈ ms, valKeyEq (evalE env m) (evalE env m')
  remaining : ∀ f ∈ s.remaining_filters, satB env f = true

/-- The structural invariant: every mapped expression has a fresh id and
belongs to its set's member list. -/
def WfSt (s : CState) : Prop :=
  ∀ e id, alookupE s.equivalence_set_map e = some id →
    id < s.set_index ∧ ∃ ms, alookupN s.equivalence_map id = some ms ∧ e ∈ ms

theorem alookupN_aupdateN_self {α : Type} (l : List (Nat × α)) (k : Nat) (v w : α)
    (h : alookupN l k = some w) : alookupN (aupdateN l k v) k = some v := by
  induction l with
  | nil => simp [alookupN] at h
  | cons p rest ih =>
    obtain ⟨pk, pv⟩ := p
    by_cases hk : pk = k
    · simp [alookupN, aupdateN, hk]
    · simp [alookupN, aupdateN, hk] at h ⊢
      exact ih h

theorem alookupN_aupdateN_ne {α : Type} (l : List (Nat × α)) (k k' : Nat) (v : α)
    (h : k' ≠ k) : alookupN (aupdateN l k v) k' = alookupN l k' := by
  induction l with
  | nil => simp [alookupN, aupdateN]
  | cons p rest ih =>
    obtain ⟨pk, pv⟩ := p
    by_cases hk : pk = k
    · subst hk
      simp [alookupN, aupdateN, Ne.symm h]
    · simp [alookupN, aupdateN, hk]
      split <;> simp [alookupN, ih]

theorem getNode_fst (s : CState) (e : CExpr) : (getNode s e).1 = e := by
  unfold getNode
  split <;> rfl

theorem getNode_keeps (s : CState) (e : CExpr) :
    (getNode s e).2.equivalence_set_map = s.equivalence_set_map ∧
    (getNode s e).2.equivalence_map = s.equivalence_map ∧
    (getNode s e).2.constant_values = s.constant_values ∧
    (getNode s e).2.remaining_filters = s.remaining_filters ∧
    (getNode s e).2.set_index = s.set_index := by
  unfold getNode
  split <;> exact ⟨rfl, rfl, rfl, rfl, rfl⟩

theorem getNode_implied (env : Env) (s : CState) (e : CExpr)
    (h : ImpliedSt env s) : ImpliedSt env (getNode s e).2 := by
  obtain ⟨h1, h2, h3, h4, h5⟩ := getNode_keeps s e
  exact ⟨by rw [h2, h3]; exact h.bounds, by rw [h2]; exact h.members,
    by rw [h4]; exact h.remaining⟩

theorem getNode_wf (s : CState) (e : CExpr) (h : WfSt s) : WfSt (getNode s e).2 := by
  obtain ⟨h1, h2, h3, h4, h5⟩ := getNode_keeps s e
  intro e' id hid
  rw [h1] at hid
  rw [h2, h5]
  exact h e' id hid

end DuckCore

namespace DuckCore

theorem getEquivalenceSet_spec (env : Env) (s : CState) (e : CExpr)
    (hw : WfSt s) (hi : ImpliedSt env s) :
    WfSt (getEquivalenceSet s e).2 ∧ ImpliedSt env (getEquivalenceSet s e).2 ∧
    (∃ ms, alookupN (getEquivalenceSet s e).2.equivalence_map
        (getEquivalenceSet s e).1 = some ms ∧ e ∈ ms) ∧
    (getEquivalenceSet s e).2.remaining_filters = s.remaining_filters := by
  cases hl : alookupE s.equivalence_set_map e with
  | some idx =>
    have hg : getEquivalenceSet s e = (idx, s) := by
      unfold getEquivalenceSet
      rw [hl]
    rw [hg]
    obtain ⟨hfresh, ms, hms, hmem⟩ := hw e idx hl
    exact ⟨hw, hi, ⟨ms, hms, hmem⟩, rfl⟩
  | none =>
    have hg : getEquivalenceSet s e = (s.set_index,
        { s with
            set_index := s.set_index + 1
            equivalence_set_map := (e, s.set_index) :: s.equivalence_set_map
            equivalence_map := (s.set_index, [e]) :: s.equivalence_map
            constant_values := (s.set_index, []) :: s.constant_values }) := by
      unfold getEquivalenceSet
      rw [hl]
    rw [hg]
    refine ⟨?_, ?_, ?_, rfl⟩
    · intro e' id hid
      simp only [alookupE] at hid
      by_cases he : cexprEq e e' = true
      · rw [if_pos he] at hid
        injection hid with hid
        subst hid
        refine ⟨by show s.set_index < s.set_index + 1; omega, [e], ?_, ?_⟩
        · simp [alookupN]
        · rw [(cexprEq_iff e e').mp he]
          exact List.mem_singleton_self _
      · rw [if_neg he] at hid
        obtain ⟨hfresh, ms, hms, hmem⟩ := hw e' id hid
        refine ⟨by show id < s.set_index + 1; omega, ms, ?_, hmem⟩
        simp only [alookupN]
        rw [if_neg (by omega)]
        exact hms
    · refine ⟨?_, ?_, ?_⟩
      · intro id ms cs hms hcs m hm i hi'
        simp only [alookupN] at hms hcs
        by_cases hid : s.set_index = id
        · rw [if_pos hid] at hms hcs
          injection hcs with hcs
          subst hcs
          simp at hi'
        · rw [if_neg hid] at hms hcs
          exact hi.bounds id ms cs hms hcs m hm i hi'
      · intro id ms hms m hm m' hm'
        simp only [alookupN] at hms
        by_cases hid : s.set_index = id
        · rw [if_pos hid] at hms
          injection hms with hms
          subst hms
          simp at hm hm'
          rw [hm, hm']
          exact valKeyEq_refl _
        · rw [if_neg hid] at hms
          exact hi.members id ms hms m hm m' hm'
      · exact hi.remaining
    · refine ⟨[e], ?_, List.mem_singleton_self _⟩
      simp [alookupN]

end DuckCore

namespace DuckCore

theorem acc_mem (cs : List EVI) (info : EVI) :
    ∀ j ∈ (addConstantComparison cs info).2, j ∈ cs ∨ j = info := by
  induction cs with
  | nil =>
    intro j hj
    simp [addConstantComparison] at hj
    exact Or.inr hj
  | cons x xs ih =>
    intro j hj
    simp only [addConstantComparison] at hj
    cases hcv : cvi x info with
    | PRUNE_LEFT =>
      rw [hcv] at hj
      rcases ih j hj with h | h
      · exact Or.inl (List.mem_cons_of_mem _ h)
      · exact Or.inr h
    | PRUNE_RIGHT =>
      rw [hcv] at hj
      exact Or.inl hj
    | UNSATISFIABLE_CONDITION =>
      rw [hcv] at hj
      exact Or.inl hj
    | PRUNE_NOTHING =>
      rw [hcv] at hj
      simp only [List.mem_cons] at hj
      rcases hj with rfl | hj
      · exact Or.inl (List.mem_cons_self _ _)
      · rcases ih j hj with h | h
        · exact Or.inl (List.mem_cons_of_mem _ h)
        · exact Or.inr h

theorem acc_unsat (cs : List EVI) (info : EVI)
    (h : (addConstantComparison cs info).1 = .UNSATISFIABLE) (v : SVal)
    (hcs : ∀ j ∈ cs, holdsV j v) (hi : holdsV info v) : False := by
  induction cs with
  | nil => simp [addConstantComparison] at h
  | cons x xs ih =>
    simp only [addConstantComparison] at h
    cases hcv : cvi x info with
    | PRUNE_LEFT =>
      rw [hcv] at h
      exact ih h (fun j hj => hcs j (List.mem_cons_of_mem _ hj))
    | PRUNE_RIGHT => rw [hcv] at h; cases h
    | UNSATISFIABLE_CONDITION =>
      exact cvi_unsat_sound x info hcv v ⟨hcs x (List.mem_cons_self _ _), hi⟩
    | PRUNE_NOTHING =>
      rw [hcv] at h
      exact ih h (fun j hj => hcs j (List.mem_cons_of_mem _ hj))

theorem mergeConsts_mem (rcs lcs : List EVI) :
    ∀ j ∈ (mergeConsts rcs lcs).2, j ∈ lcs ∨ j ∈ rcs := by
  induction rcs generalizing lcs with
  | nil =>
    intro j hj
    simp [mergeConsts] at hj
    exact Or.inl hj
  | cons rc rest ih =>
    intro j hj
    simp only [mergeConsts] at hj
    split at hj
    · rcases acc_mem lcs rc j hj with h | h
      · exact Or.inl h
      · exact Or.inr (h ▸ List.mem_cons_self _ _)
    · rcases ih _ j hj with h | h
      · rcases acc_mem lcs rc j h with h' | h'
        · exact Or.inl h'
        · exact Or.inr (h' ▸ List.mem_cons_self _ _)
      · exact Or.inr (List.mem_cons_of_mem _ h)

theorem mergeConsts_unsat (rcs lcs : List EVI)
    (h : (mergeConsts rcs lcs).1 = true) (v : SVal)
    (hl : ∀ j ∈ lcs, holdsV j v) (hr : ∀ j ∈ rcs, holdsV j v) : False := by
  induction rcs generalizing lcs with
  | nil => simp [mergeConsts] at h
  | cons rc rest ih =>
    simp only [mergeConsts] at h
    split at h
    · rename_i hu
      exact acc_unsat lcs rc hu v hl (hr rc (List.mem_cons_self _ _))
    · refine ih _ h ?_ (fun j hj => hr j (List.mem_cons_of_mem _ hj))
      intro j hj
      rcases acc_mem lcs rc j hj with h' | h'
      · exact hl j h'
      · exact h' ▸ hr rc (List.mem_cons_self _ _)

end DuckCore

namespace DuckCore

theorem satB_cmp_bTrue (env : Env) (op : CmpOp) (l r : CExpr)
    (h : satB env (.cmp op l r) = true) :
    cmp3 op (evalE env l) (evalE env r) = bTrue := by
  simp only [satB, evalE] at h
  unfold cmp3 at h ⊢
  split at h
  · simp [bNull] at h
  · split at h
    · simp_all
    · simp [bFalse] at h

theorem derive_eq_holds (op : CmpOp) (c vL vR : SVal)
    (hcmp : cmp3 op vL vR = bTrue) (h : holdsV ⟨.eq, c⟩ vR) :
    holdsV ⟨op, c⟩ vL := by
  have h1 := (holdsV_iff ⟨op, vR⟩ vL).mp hcmp
  obtain ⟨hL, hR, hc⟩ := h1
  obtain ⟨-, hcn, he⟩ := (holdsV_iff _ _).mp h
  rw [holdsV_iff]
  refine ⟨hL, hcn, ?_⟩
  simp only [cmpv, veq, hR, hcn, Bool.not_false, Bool.and_eq_true,
    decide_eq_true_eq, true_and] at he
  cases op <;>
    simp_all [cmpv, vlt, vle, vgt, vge, veq, vne]

theorem derive_match_holds (op rct : CmpOp) (c vL vR : SVal)
    (hcmp : cmp3 op vL vR = bTrue)
    (hfam : (op = .ge ∧ isGreaterThanOp rct = true) ∨
      (op = .le ∧ isLessThanOp rct = true))
    (h : holdsV ⟨rct, c⟩ vR) : holdsV ⟨rct, c⟩ vL := by
  have h1 := (holdsV_iff ⟨op, vR⟩ vL).mp hcmp
  obtain ⟨hL, hR, hc⟩ := h1
  obtain ⟨-, hcn, he⟩ := (holdsV_iff _ _).mp h
  rw [holdsV_iff]
  refine ⟨hL, hcn, ?_⟩
  rcases hfam with ⟨rfl, hg⟩ | ⟨rfl, hg⟩ <;>
    rcases (by cases hr : rct <;> simp_all [isGreaterThanOp, isLessThanOp] :
        rct = .gt ∨ rct = .ge ∨ rct = .lt ∨ rct = .le) with hr | hr | hr | hr <;>
      subst hr <;>
        simp_all [cmpv, vlt, vle, vgt, vge, isGreaterThanOp, isLessThanOp] <;>
          omega

theorem derive_strict_holds (op rct : CmpOp) (c vL vR : SVal)
    (hcmp : cmp3 op vL vR = bTrue)
    (hfam : (op = .gt ∧ isGreaterThanOp rct = true) ∨
      (op = .lt ∧ isLessThanOp rct = true))
    (h : holdsV ⟨rct, c⟩ vR) : holdsV ⟨op, c⟩ vL := by
  have h1 := (holdsV_iff ⟨op, vR⟩ vL).mp hcmp
  obtain ⟨hL, hR, hc⟩ := h1
  obtain ⟨-, hcn, he⟩ := (holdsV_iff _ _).mp h
  rw [holdsV_iff]
  refine ⟨hL, hcn, ?_⟩
  rcases hfam with ⟨rfl, hg⟩ | ⟨rfl, hg⟩ <;>
    rcases (by cases hr : rct <;> simp_all [isGreaterThanOp, isLessThanOp] :
        rct = .gt ∨ rct = .ge ∨ rct = .lt ∨ rct = .le) with hr | hr | hr | hr <;>
      subst hr <;>
        simp_all [cmpv, vlt, vle, vgt, vge, isGreaterThanOp, isLessThanOp] <;>
          omega

end DuckCore

namespace DuckCore

/-- The invariant carried through the `AddTransitiveFilters` derivation
loop: no unsatisfiability was declared, every left constant bound holds of
the left expression's value, every residual filter is satisfied. -/
def AtfGoal (env : Env) (lhs : CExpr) (p : Bool × AtfAcc) : Prop :=
  p.1 = false ∧ (∀ j ∈ p.2.lcs, holdsV j (evalE env lhs)) ∧
  (∀ f ∈ p.2.rem, satB env f = true)

theorem atfStep_sound (env : Env) (op : CmpOp) (lhs rhs : CExpr) (rest : List EVI)
    (acc1 : AtfAcc) (ct : CmpOp) (c : SVal)
    (ih : ∀ acc : AtfAcc, (∀ j ∈ acc.lcs, holdsV j (evalE env lhs)) →
      (∀ f ∈ acc.rem, satB env f = true) →
      AtfGoal env lhs (atfLoop op lhs rhs rest acc))
    (hder : holdsV ⟨ct, c⟩ (evalE env lhs))
    (hlcs : ∀ j ∈ acc1.lcs, holdsV j (evalE env lhs))
    (hrem : ∀ f ∈ acc1.rem, satB env f = true) :
    AtfGoal env lhs
      (if (addConstantComparison acc1.lcs ⟨ct, c⟩).1 = FilterResult.UNSATISFIABLE
       then (true, { acc1 with lcs := (addConstantComparison acc1.lcs ⟨ct, c⟩).2 })
       else atfLoop op lhs rhs rest
         { acc1 with lcs := (addConstantComparison acc1.lcs ⟨ct, c⟩).2, suc := true }) := by
  by_cases hu : (addConstantComparison acc1.lcs ⟨ct, c⟩).1 = FilterResult.UNSATISFIABLE
  · exact (acc_unsat acc1.lcs ⟨ct, c⟩ hu (evalE env lhs) hlcs hder).elim
  · rw [if_neg hu]
    refine ih _ ?_ hrem
    intro j hj
    rcases acc_mem acc1.lcs ⟨ct, c⟩ j hj with h | h
    · exact hlcs j h
    · exact h ▸ hder

theorem atfLoop_sound (env : Env) (op : CmpOp) (lhs rhs : CExpr)
    (hsat : satB env (.cmp op lhs rhs) = true) :
    ∀ (rcs : List EVI) (acc : AtfAcc),
      (∀ rc ∈ rcs, holdsV rc (evalE env rhs)) →
      (∀ j ∈ acc.lcs, holdsV j (evalE env lhs)) →
      (∀ f ∈ acc.rem, satB env f = true) →
      AtfGoal env lhs (atfLoop op lhs rhs rcs acc) := by
  intro rcs
  induction rcs with
  | nil =>
    intro acc _ hlcs hrem
    exact ⟨rfl, hlcs, hrem⟩
  | cons rc rest ih =>
    intro acc hrcs hlcs hrem
    have hR : holdsV rc (evalE env rhs) := hrcs rc (List.mem_cons_self _ _)
    have hrest : ∀ rc' ∈ rest, holdsV rc' (evalE env rhs) :=
      fun rc' h' => hrcs rc' (List.mem_cons_of_mem _ h')
    have ih' : ∀ acc : AtfAcc, (∀ j ∈ acc.lcs, holdsV j (evalE env lhs)) →
        (∀ f ∈ acc.rem, satB env f = true) →
        AtfGoal env lhs (atfLoop op lhs rhs rest acc) :=
      fun a h1 h2 => ih a hrest h1 h2
    have hcm : cmp3 op (evalE env lhs) (evalE env rhs) = bTrue :=
      satB_cmp_bTrue env op lhs rhs hsat
    simp only [atfLoop]
    split
    · rename_i h1
      have hReq : holdsV ⟨CmpOp.eq, rc.constant⟩ (evalE env rhs) := by
        have h2 := hR
        unfold holdsV at h2 ⊢
        rw [h1] at h2
        exact h2
      exact atfStep_sound env op lhs rhs rest acc op rc.constant ih'
        (derive_eq_holds op rc.constant _ _ hcm hReq) hlcs hrem
    · split
      · rename_i h1 h2
        have hfam : (op = CmpOp.ge ∧ isGreaterThanOp rc.comparison_type = true) ∨
            (op = CmpOp.le ∧ isLessThanOp rc.comparison_type = true) := by
          simpa [Bool.or_eq_true, Bool.and_eq_true, decide_eq_true_eq] using h2
        apply atfStep_sound env op lhs rhs rest _ rc.comparison_type rc.constant ih'
          (derive_match_holds op rc.comparison_type rc.constant _ _ hcm hfam hR)
        · by_cases hins : acc.ins = true
          · rw [if_pos hins]
            exact hlcs
          · rw [if_neg hins]
            exact hlcs
        · by_cases hins : acc.ins = true
          · rw [if_pos hins]
            exact hrem
          · rw [if_neg hins]
            intro f hf
            rcases List.mem_append.mp hf with h | h
            · exact hrem f h
            · rw [List.mem_singleton] at h
              subst h
              exact hsat
      · split
        · rename_i h1 h2 h3
          have hfam : (op = CmpOp.gt ∧ isGreaterThanOp rc.comparison_type = true) ∨
              (op = CmpOp.lt ∧ isLessThanOp rc.comparison_type = true) := by
            simpa [Bool.or_eq_true, Bool.and_eq_true, decide_eq_true_eq] using h3
          apply atfStep_sound env op lhs rhs rest _ op rc.constant ih'
            (derive_strict_holds op rc.comparison_type rc.constant _ _ hcm hfam hR)
          · by_cases hins : acc.ins = true
            · rw [if_pos hins]
              exact hlcs
            · rw [if_neg hins]
              exact hlcs
          · by_cases hins : acc.ins = true
            · rw [if_pos hins]
              exact hrem
            · rw [if_neg hins]
              intro f hf
              rcases List.mem_append.mp hf with h | h
              · exact hrem f h
              · rw [List.mem_singleton] at h
                subst h
                exact hsat
        · exact ih' acc hlcs hrem

end DuckCore

namespace DuckCore

theorem alookupN_aupdateN_eq {α : Type} (l : List (Nat × α)) (k : Nat) (v w : α)
    (h : alookupN (aupdateN l k v) k = some w) : w = v := by
  induction l with
  | nil => simp [alookupN, aupdateN] at h
  | cons p rest ih =>
    obtain ⟨pk, pv⟩ := p
    by_cases hk : pk = k
    · simp [alookupN, aupdateN, hk] at h
      exact h.symm
    · simp only [aupdateN, if_neg hk, alookupN] at h
      exact ih h

theorem ges_set_index_le (s : CState) (e : CExpr) :
    s.set_index ≤ (getEquivalenceSet s e).2.set_index := by
  unfold getEquivalenceSet
  cases alookupE s.equivalence_set_map e <;> simp

theorem ges_id_lt (s : CState) (e : CExpr) (hw : WfSt s) :
    (getEquivalenceSet s e).1 < (getEquivalenceSet s e).2.set_index := by
  cases hl : alookupE s.equivalence_set_map e with
  | some idx =>
    have hg : getEquivalenceSet s e = (idx, s) := by
      unfold getEquivalenceSet
      rw [hl]
    rw [hg]
    exact (hw e idx hl).1
  | none =>
    unfold getEquivalenceSet
    rw [hl]
    show s.set_index < s.set_index + 1
    omega

theorem ges_preserve (s : CState) (e : CExpr) (id : Nat) (hid : id < s.set_index) :
    alookupN (getEquivalenceSet s e).2.equivalence_map id =
      alookupN s.equivalence_map id ∧
    alookupN (getEquivalenceSet s e).2.constant_values id =
      alookupN s.constant_values id := by
  cases hl : alookupE s.equivalence_set_map e with
  | some idx =>
    have hg : getEquivalenceSet s e = (idx, s) := by
      unfold getEquivalenceSet
      rw [hl]
    rw [hg]
    exact ⟨rfl, rfl⟩
  | none =>
    have hg : (getEquivalenceSet s e).2 = { s with
        set_index := s.set_index + 1
        equivalence_set_map := (e, s.set_index) :: s.equivalence_set_map
        equivalence_map := (s.set_index, [e]) :: s.equivalence_map
        constant_values := (s.set_index, []) :: s.constant_values } := by
      unfold getEquivalenceSet
      rw [hl]
    rw [hg]
    constructor <;>
      · show alookupN ((s.set_index, _) :: _) id = _
        simp only [alookupN]
        rw [if_neg (by omega)]

theorem ftfScan_step (e g : CExpr) (gs : List CExpr) (f : CExpr) (rest : List CExpr)
    (ih : ∀ f' rest', ftfScan e gs = some (f', rest') →
      f' ∈ gs ∧ ∀ x ∈ rest', x ∈ gs)
    (h : (ftfScan e gs).map (fun p => (p.1, g :: p.2)) = some (f, rest)) :
    f ∈ g :: gs ∧ ∀ x ∈ rest, x ∈ g :: gs := by
  rw [Option.map_eq_some'] at h
  obtain ⟨p, hp, hpe⟩ := h
  simp only [Prod.mk.injEq] at hpe
  obtain ⟨rfl, rfl⟩ := hpe
  obtain ⟨hf, hrest⟩ := ih p.1 p.2 (by rw [hp])
  refine ⟨List.mem_cons_of_mem _ hf, ?_⟩
  intro x hx
  rcases List.mem_cons.mp hx with rfl | hx'
  · exact List.mem_cons_self _ _
  · exact List.mem_cons_of_mem _ (hrest x hx')

theorem ftfScan_mem (e : CExpr) : ∀ (l : List CExpr) (f : CExpr) (rest : List CExpr),
    ftfScan e l = some (f, rest) → f ∈ l ∧ ∀ x ∈ rest, x ∈ l := by
  intro l
  induction l with
  | nil =>
    intro f rest h
    simp [ftfScan] at h
  | cons g gs ih =>
    intro f rest h
    cases g with
    | cmp op lc rc =>
      simp only [ftfScan] at h
      split at h
      · simp only [Option.some.injEq, Prod.mk.injEq] at h
        obtain ⟨rfl, rfl⟩ := h
        exact ⟨List.mem_cons_self _ _, fun x hx => List.mem_cons_of_mem _ hx⟩
      · exact ftfScan_step e _ gs f rest ih h
    | colref i =>
      simp only [ftfScan] at h
      exact ftfScan_step e _ gs f rest ih h
    | cst v =>
      simp only [ftfScan] at h
      exact ftfScan_step e _ gs f rest ih h
    | between i lo hi a b =>
      simp only [ftfScan] at h
      exact ftfScan_step e _ gs f rest ih h
    | func n cs =>
      simp only [ftfScan] at h
      exact ftfScan_step e _ gs f rest ih h
    | inOp cs =>
      simp only [ftfScan] at h
      exact ftfScan_step e _ gs f rest ih h
    | other t =>
      simp only [ftfScan] at h
      exact ftfScan_step e _ gs f rest ih h

end DuckCore

namespace DuckCore

theorem ImpliedSt_cv_rem (env : Env) (s : CState) (id : Nat) (cs : List EVI)
    (rem : List CExpr) (hi : ImpliedSt env s)
    (hb : ∀ ms, alookupN s.equivalence_map id = some ms →
        ∀ m ∈ ms, ∀ i ∈ cs, holdsV i (evalE env m))
    (hrem : ∀ f ∈ rem, satB env f = true) :
    ImpliedSt env { s with constant_values := aupdateN s.constant_values id cs,
                           remaining_filters := rem } := by
  refine ⟨?_, ?_, hrem⟩
  · intro id' ms' cs' hms hcs m hm i hi'
    have hms2 : alookupN s.equivalence_map id' = some ms' := hms
    have hcs2 : alookupN (aupdateN s.constant_values id cs) id' = some cs' := hcs
    by_cases hid : id' = id
    · subst hid
      have hvc := alookupN_aupdateN_eq s.constant_values id' cs cs' hcs2
      subst hvc
      exact hb ms' hms2 m hm i hi'
    · rw [alookupN_aupdateN_ne s.constant_values id id' cs hid] at hcs2
      exact hi.bounds id' ms' cs' hms2 hcs2 m hm i hi'
  · intro id' ms hms m hm m' hm'
    have hms2 : alookupN s.equivalence_map id' = some ms := hms
    exact hi.members id' ms hms2 m hm m' hm'

theorem ImpliedSt_rem (env : Env) (s : CState) (rem : List CExpr)
    (hi : ImpliedSt env s) (hrem : ∀ f ∈ rem, satB env f = true) :
    ImpliedSt env { s with remaining_filters := rem } := by
  refine ⟨?_, ?_, hrem⟩
  · intro id' ms' cs' hms hcs m hm i hi'
    exact hi.bounds id' ms' cs' hms hcs m hm i hi'
  · intro id' ms hms m hm m' hm'
    exact hi.members id' ms hms m hm m' hm'

theorem ImpliedSt_rem_append (env : Env) (s : CState) (e : CExpr)
    (hi : ImpliedSt env s) (he : satB env e = true) :
    ImpliedSt env { s with remaining_filters := s.remaining_filters ++ [e] } := by
  refine ImpliedSt_rem env s _ hi ?_
  intro f hf
  rcases List.mem_append.mp hf with h | h
  · exact hi.remaining f h
  · rw [List.mem_singleton] at h
    subst h
    exact he

theorem veq_symm (a b : SVal) : veq a b = veq b a := by
  unfold veq
  cases a.is_null <;> cases b.is_null <;> simp [eq_comm]

theorem cmpv_flip (op : CmpOp) (a b : SVal) : cmpv (flipCmp op) a b = cmpv op b a := by
  cases op
  · exact veq_symm a b
  · show vne a b = vne b a
    unfold vne
    rw [veq_symm]
  · rfl
  · rfl
  · rfl
  · rfl

theorem cmp3_flip (op : CmpOp) (a b : SVal) : cmp3 (flipCmp op) a b = cmp3 op b a := by
  unfold cmp3
  rw [cmpv_flip, Bool.or_comm]

theorem satB_eq_keyEq (env : Env) (l r : CExpr)
    (h : satB env (.cmp .eq l r) = true) :
    valKeyEq (evalE env l) (evalE env r) := by
  have h1 := satB_cmp_bTrue env .eq l r h
  have h2 := (holdsV_iff ⟨CmpOp.eq, evalE env r⟩ (evalE env l)).mp h1
  obtain ⟨hl, hr, hc⟩ := h2
  simp only [cmpv, veq, hl, hr, Bool.not_false, Bool.and_eq_true,
    decide_eq_true_eq, true_and] at hc
  exact ⟨hl.trans hr.symm, hc.2⟩

end DuckCore

namespace DuckCore

theorem ftf_spec (env : Env) (s : CState) (e : CExpr) (hw : WfSt s)
    (hi : ImpliedSt env s) :
    WfSt (findTransitiveFilter s e).2 ∧ ImpliedSt env (findTransitiveFilter s e).2 ∧
    ∀ tf, (findTransitiveFilter s e).1 = some tf → satB env tf = true := by
  unfold findTransitiveFilter
  cases e
  case colref i =>
    cases hscan : ftfScan (CExpr.colref i) s.remaining_filters with
    | none =>
      exact ⟨hw, hi, fun tf h => Option.noConfusion h⟩
    | some p =>
      obtain ⟨f, rest⟩ := p
      obtain ⟨hf, hrest⟩ := ftfScan_mem (CExpr.colref i) s.remaining_filters f rest hscan
      refine ⟨hw, ?_, ?_⟩
      · exact ImpliedSt_rem env s rest hi (fun x hx => hi.remaining x (hrest x hx))
      · intro tf h
        have h2 : some f = some tf := h
        injection h2 with h2
        subst h2
        exact hi.remaining f hf
  all_goals exact ⟨hw, hi, fun tf h => Option.noConfusion h⟩

end DuckCore

namespace DuckCore

theorem atf_sound : ∀ (fuel : Nat) (s : CState) (op : CmpOp) (lhs rhs : CExpr)
    (env : Env) (r : FilterResult) (s' : CState),
    addTransitiveFilters fuel s op lhs rhs = some (r, s') →
    WfSt s → ImpliedSt env s → satB env (CExpr.cmp op lhs rhs) = true →
    WfSt s' ∧ ImpliedSt env s' ∧ r ≠ FilterResult.UNSATISFIABLE := by
  intro fuel
  induction fuel with
  | zero =>
    intro s op lhs rhs env r s' h
    simp [addTransitiveFilters] at h
  | succ fuel ih =>
    intro s op lhs rhs env r s' h hw hi hsat
    simp only [addTransitiveFilters] at h
    set G1 := getNode s lhs with hG1def
    set G2 := getNode G1.2 rhs with hG2def
    set E1 := getEquivalenceSet G2.2 G1.1 with hE1def
    set E2 := getEquivalenceSet E1.2 G2.1 with hE2def
    have hg1fst : G1.1 = lhs := getNode_fst s lhs
    have hg2fst : G2.1 = rhs := getNode_fst G1.2 rhs
    have hw1 : WfSt G1.2 := getNode_wf s lhs hw
    have hi1 : ImpliedSt env G1.2 := getNode_implied env s lhs hi
    have hw2 : WfSt G2.2 := getNode_wf G1.2 rhs hw1
    have hi2 : ImpliedSt env G2.2 := getNode_implied env G1.2 rhs hi1
    split at h
    · simp at h
    · rename_i hop
      split at h
      · simp only [Option.some.injEq, Prod.mk.injEq] at h
        obtain ⟨rfl, rfl⟩ := h
        exact ⟨hw2, hi2, by decide⟩
      · rename_i hdiff
        obtain ⟨hwE1, hiE1, ⟨ms1, hms1, hmem1⟩, hremE1⟩ :=
          getEquivalenceSet_spec env G2.2 G1.1 hw2 hi2
        obtain ⟨hwE2, hiE2, ⟨ms2, hms2, hmem2⟩, hremE2⟩ :=
          getEquivalenceSet_spec env E1.2 G2.1 hwE1 hiE1
        split at h
        · simp only [Option.some.injEq, Prod.mk.injEq] at h
          obtain ⟨rfl, rfl⟩ := h
          exact ⟨hwE2, hiE2, by decide⟩
        · rename_i hneid
          split at h
          · rename_i lcs0 rcs0 hL hR
            have hmsE1 : alookupN E1.2.equivalence_map E1.1 = some ms1 := hms1
            have hmsE2 : alookupN E2.2.equivalence_map E2.1 = some ms2 := hms2
            have hidlt : E1.1 < E1.2.set_index := ges_id_lt G2.2 G1.1 hw2
            have hms1' : alookupN E2.2.equivalence_map E1.1 = some ms1 :=
              (ges_preserve E1.2 G2.1 E1.1 hidlt).1.trans hmsE1
            have hLe : alookupN E2.2.constant_values E1.1 = some lcs0 := hL
            have hRe : alookupN E2.2.constant_values E2.1 = some rcs0 := hR
            have hlcsL : ∀ j ∈ lcs0, holdsV j (evalE env lhs) := by
              intro j hj
              have hx := hiE2.bounds E1.1 ms1 lcs0 hms1' hLe G1.1 hmem1 j hj
              rwa [hg1fst] at hx
            have hrcsR : ∀ rc ∈ rcs0, holdsV rc (evalE env rhs) := by
              intro rc hrc
              have hx := hiE2.bounds E2.1 ms2 rcs0 hmsE2 hRe G2.1 hmem2 rc hrc
              rwa [hg2fst] at hx
            have hremS : ∀ f ∈ E2.2.remaining_filters, satB env f = true :=
              hiE2.remaining
            obtain ⟨hfalse, hlcs5, hrem5⟩ :=
              atfLoop_sound env op lhs rhs hsat rcs0
                ⟨lcs0, E2.2.remaining_filters, false, false⟩ hrcsR hlcsL hremS
            split at h
            · rename_i hcond
              rw [hfalse] at hcond
              simp at hcond
            · rename_i hcond2
              have hb : ∀ ms, alookupN E2.2.equivalence_map E1.1 = some ms →
                  ∀ m ∈ ms, ∀ i ∈ (atfLoop op lhs rhs rcs0
                      ⟨lcs0, E2.2.remaining_filters, false, false⟩).2.lcs,
                    holdsV i (evalE env m) := by
                intro ms hms m hm i hii
                rw [hms1'] at hms
                injection hms with hms
                subst hms
                have hkey := hiE2.members E1.1 ms1 hms1' m hm G1.1 hmem1
                rw [hg1fst] at hkey
                exact (holdsV_key i hkey).mpr (hlcs5 i hii)
              have hi5 : ImpliedSt env { E2.2 with
                  constant_values := aupdateN E2.2.constant_values E1.1
                    (atfLoop op lhs rhs rcs0
                      ⟨lcs0, E2.2.remaining_filters, false, false⟩).2.lcs,
                  remaining_filters := (atfLoop op lhs rhs rcs0
                    ⟨lcs0, E2.2.remaining_filters, false, false⟩).2.rem } :=
                ImpliedSt_cv_rem env E2.2 E1.1 _ _ hiE2 hb hrem5
              have hw5 : WfSt { E2.2 with
                  constant_values := aupdateN E2.2.constant_values E1.1
                    (atfLoop op lhs rhs rcs0
                      ⟨lcs0, E2.2.remaining_filters, false, false⟩).2.lcs,
                  remaining_filters := (atfLoop op lhs rhs rcs0
                    ⟨lcs0, E2.2.remaining_filters, false, false⟩).2.rem } := hwE2
              split at h
              · rename_i hsuc
                split at h
                · rename_i tf s6 hftfeq
                  have hspec := ftf_spec env _ lhs hw5 hi5
                  rw [hftfeq] at hspec
                  obtain ⟨hw6, hi6, hsat6⟩ := hspec
                  have hw6' : WfSt s6 := hw6
                  have hi6' : ImpliedSt env s6 := hi6
                  split at h
                  · rename_i top tl tr
                    have hsatTf : satB env (CExpr.cmp top tl tr) = true :=
                      hsat6 _ rfl
                    split at h
                    · simp at h
                    · rename_i s7 heq2
                      simp only [Option.some.injEq, Prod.mk.injEq] at h
                      obtain ⟨rfl, rfl⟩ := h
                      obtain ⟨hw7, hi7, -⟩ :=
                        ih s6 top tl tr env _ s7 heq2 hw6' hi6' hsatTf
                      exact ⟨hw7, ImpliedSt_rem_append env s7 _ hi7 hsatTf,
                        by decide⟩
                    · rename_i res s7 hres heq2
                      simp only [Option.some.injEq, Prod.mk.injEq] at h
                      obtain ⟨rfl, rfl⟩ := h
                      obtain ⟨hw7, hi7, -⟩ :=
                        ih s6 top tl tr env _ s7 heq2 hw6' hi6' hsatTf
                      exact ⟨hw7, hi7, by decide⟩
                  · simp at h
                · rename_i s6 hftfeq
                  have hspec := ftf_spec env _ lhs hw5 hi5
                  rw [hftfeq] at hspec
                  obtain ⟨hw6, hi6, -⟩ := hspec
                  simp only [Option.some.injEq, Prod.mk.injEq] at h
                  obtain ⟨rfl, rfl⟩ := h
                  exact ⟨hw6, hi6, by decide⟩
              · rename_i hnsuc
                simp only [Option.some.injEq, Prod.mk.injEq] at h
                obtain ⟨rfl, rfl⟩ := h
                exact ⟨hw5, hi5, by decide⟩
          all_goals simp at h

end DuckCore

namespace DuckCore

theorem cmp3_of_truthy (op : CmpOp) (x y : SVal)
    (h1 : (cmp3 op x y).is_null = false) (h2 : (cmp3 op x y).ival ≠ 0) :
    cmp3 op x y = bTrue := by
  unfold cmp3 at h1 h2 ⊢
  by_cases hn : (x.is_null || y.is_null) = true
  · rw [if_pos hn] at h1
    simp [bNull] at h1
  · rw [if_neg hn] at h2 ⊢
    by_cases hc : cmpv op x y = true
    · rw [if_pos hc]
    · rw [if_neg hc] at h2
      exact absurd rfl h2

theorem and3_truthy (a b : SVal)
    (h1 : (and3 a b).is_null = false) (h2 : (and3 a b).ival ≠ 0) :
    (a.is_null = false ∧ a.ival ≠ 0) ∧ (b.is_null = false ∧ b.ival ≠ 0) := by
  unfold and3 at h1 h2
  by_cases hc1 : (!a.is_null && decide (a.ival = 0) || !b.is_null && decide (b.ival = 0)) = true
  · rw [if_pos hc1] at h2
    exact absurd rfl h2
  · rw [if_neg hc1] at h1
    by_cases hc2 : (a.is_null || b.is_null) = true
    · rw [if_pos hc2] at h1
      simp [bNull] at h1
    · have hna : a.is_null = false := by
        cases hx : a.is_null
        · rfl
        · exact absurd (by rw [hx]; simp) hc2
      have hnb : b.is_null = false := by
        cases hx : b.is_null
        · rfl
        · exact absurd (by rw [hx]; simp) hc2
      refine ⟨⟨hna, fun hz => hc1 ?_⟩, ⟨hnb, fun hz => hc1 ?_⟩⟩
      · rw [hna, hz]
        simp
      · rw [hnb, hz]
        simp

theorem satB_between (env : Env) (inp lo hi : CExpr) (li ui : Bool)
    (h : satB env (.between inp lo hi li ui) = true) :
    cmp3 (if li then .le else .lt) (evalE env lo) (evalE env inp) = bTrue ∧
    cmp3 (if ui then .le else .lt) (evalE env inp) (evalE env hi) = bTrue := by
  simp only [satB, evalE, Bool.and_eq_true, Bool.not_eq_true',
    decide_eq_true_eq] at h
  obtain ⟨h1, h2⟩ := h
  obtain ⟨⟨ha1, ha2⟩, ⟨hb1, hb2⟩⟩ := and3_truthy _ _ h1 h2
  exact ⟨cmp3_of_truthy _ _ _ ha1 ha2, cmp3_of_truthy _ _ _ hb1 hb2⟩

theorem alookupN_unique {α : Type} (l : List (Nat × α)) (k : Nat) (a b : α)
    (h1 : alookupN l k = some a) (h2 : alookupN l k = some b) : a = b := by
  rw [h1] at h2
  injection h2

theorem alookupE_map_remap (rb : List CExpr) (newid : Nat) :
    ∀ (esm : List (CExpr × Nat)) (e : CExpr) (id : Nat),
    alookupE (esm.map (fun p => if p.1 ∈ rb then (p.1, newid) else p)) e = some id →
    (e ∈ rb ∧ id = newid) ∨ (e ∉ rb ∧ alookupE esm e = some id) := by
  intro esm
  induction esm with
  | nil =>
    intro e id h
    simp [alookupE] at h
  | cons p rest ih =>
    intro e id h
    obtain ⟨k, v⟩ := p
    rw [List.map_cons] at h
    by_cases hk : k ∈ rb
    · rw [if_pos hk] at h
      simp only [alookupE] at h
      by_cases he : cexprEq k e = true
      · rw [if_pos he] at h
        injection h with h
        subst h
        have hke : k = e := (cexprEq_iff k e).mp he
        subst hke
        exact Or.inl ⟨hk, rfl⟩
      · rw [if_neg he] at h
        rcases ih e id h with hl | ⟨hr1, hr2⟩
        · exact Or.inl hl
        · refine Or.inr ⟨hr1, ?_⟩
          simp only [alookupE]
          rw [if_neg he]
          exact hr2
    · rw [if_neg hk] at h
      simp only [alookupE] at h
      by_cases he : cexprEq k e = true
      · rw [if_pos he] at h
        injection h with h
        subst h
        have hke : k = e := (cexprEq_iff k e).mp he
        subst hke
        refine Or.inr ⟨hk, ?_⟩
        simp only [alookupE]
        rw [if_pos he]
      · rw [if_neg he] at h
        rcases ih e id h with hl | ⟨hr1, hr2⟩
        · exact Or.inl hl
        · refine Or.inr ⟨hr1, ?_⟩
          simp only [alookupE]
          rw [if_neg he]
          exact hr2

end DuckCore

namespace DuckCore

theorem abcf_sound (fuel : Nat) (s : CState) (op : CmpOp) (l r : CExpr)
    (env : Env) (res : FilterResult) (s' : CState)
    (h : addBoundComparisonFilter fuel s op l r = some (res, s'))
    (hw : WfSt s) (hi : ImpliedSt env s)
    (hsat : satB env (.cmp op l r) = true) :
    WfSt s' ∧ ImpliedSt env s' ∧ res ≠ FilterResult.UNSATISFIABLE := by
  simp only [addBoundComparisonFilter] at h
  split at h
  · rename_i hscal
    set NS := if isFoldable l = true then r else l with hNS
    set SC := if isFoldable l = true then l else r with hSC
    set G := getNode s NS with hG
    set E := getEquivalenceSet G.2 G.1 with hE
    split at h
    · simp at h
    · rename_i cval hSval
      split at h
      · simp at h
      · rename_i info_list hlook
        have hwG : WfSt G.2 := getNode_wf s NS hw
        have hiG : ImpliedSt env G.2 := getNode_implied env s NS hi
        obtain ⟨hwE, hiE, ⟨msE, hmsE, hmemE⟩, hremE⟩ :=
          getEquivalenceSet_spec env G.2 G.1 hwG hiG
        have hgfst : G.1 = NS := getNode_fst s NS
        have hcm : cmp3 op (evalE env l) (evalE env r) = bTrue :=
          satB_cmp_bTrue env op l r hsat
        have hder : holdsV ⟨if isFoldable l = true then flipCmp op else op, cval⟩
            (evalE env NS) := by
          show cmp3 (if isFoldable l = true then flipCmp op else op)
            (evalE env NS) cval = bTrue
          rw [hNS]
          have hSval' := hSval
          rw [hSC] at hSval'
          by_cases hlis : isFoldable l = true
          · simp only [if_pos hlis] at hSval' ⊢
            unfold evalScalar at hSval'
            rw [if_pos hlis] at hSval'
            injection hSval' with hSval'
            rw [cmp3_flip, ← hSval', evalE_foldable_env l hlis defaultEnv env]
            exact hcm
          · simp only [if_neg hlis] at hSval' ⊢
            have hris : isFoldable r = true := by
              rcases Bool.or_eq_true_iff.mp hscal with hx | hx
              · exact absurd hx hlis
              · exact hx
            unfold evalScalar at hSval'
            rw [if_pos hris] at hSval'
            injection hSval' with hSval'
            rw [← hSval', evalE_foldable_env r hris defaultEnv env]
            exact hcm
        have hlist : ∀ j ∈ info_list, holdsV j (evalE env NS) := by
          intro j hj
          have hx := hiE.bounds E.1 msE info_list hmsE hlook G.1 hmemE j hj
          rwa [hgfst] at hx
        have hne : (addConstantComparison info_list
            ⟨if isFoldable l = true then flipCmp op else op, cval⟩).1 ≠
            FilterResult.UNSATISFIABLE :=
          fun hu => acc_unsat info_list _ hu (evalE env NS) hlist hder
        have hb3 : ∀ ms, alookupN E.2.equivalence_map E.1 = some ms →
            ∀ m ∈ ms, ∀ i ∈ (addConstantComparison info_list
              ⟨if isFoldable l = true then flipCmp op else op, cval⟩).2,
            holdsV i (evalE env m) := by
          intro ms hms m hm i hii
          rw [hmsE] at hms
          injection hms with hms
          subst hms
          have hkey := hiE.members E.1 msE hmsE m hm G.1 hmemE
          rw [hgfst] at hkey
          rcases acc_mem info_list _ i hii with hx | hx
          · exact (holdsV_key i hkey).mpr (hlist i hx)
          · rw [hx]
            exact (holdsV_key _ hkey).mpr hder
        have hi3 : ImpliedSt env { E.2 with
            constant_values := aupdateN E.2.constant_values E.1
              (addConstantComparison info_list
                ⟨if isFoldable l = true then flipCmp op else op, cval⟩).2 } :=
          ImpliedSt_cv_rem env E.2 E.1 _ _ hiE hb3 hiE.remaining
        have hw3 : WfSt { E.2 with
            constant_values := aupdateN E.2.constant_values E.1
              (addConstantComparison info_list
                ⟨if isFoldable l = true then flipCmp op else op, cval⟩).2 } := hwE
        split at h
        · rename_i tf s4 hftfeq
          have hspec := ftf_spec env _ NS hw3 hi3
          rw [hftfeq] at hspec
          obtain ⟨hw4, hi4, hsat4⟩ := hspec
          have hw4' : WfSt s4 := hw4
          have hi4' : ImpliedSt env s4 := hi4
          split at h
          · rename_i top tl tr
            have hsatTf : satB env (CExpr.cmp top tl tr) = true := hsat4 _ rfl
            split at h
            · simp at h
            · rename_i s5 heq2
              simp only [Option.some.injEq, Prod.mk.injEq] at h
              obtain ⟨rfl, rfl⟩ := h
              obtain ⟨hw5, hi5, -⟩ :=
                atf_sound fuel s4 top tl tr env _ s5 heq2 hw4' hi4' hsatTf
              exact ⟨hw5, ImpliedSt_rem_append env s5 _ hi5 hsatTf, hne⟩
            · rename_i res5 s5 hres5 heq2
              simp only [Option.some.injEq, Prod.mk.injEq] at h
              obtain ⟨rfl, rfl⟩ := h
              obtain ⟨hw5, hi5, -⟩ :=
                atf_sound fuel s4 top tl tr env _ s5 heq2 hw4' hi4' hsatTf
              exact ⟨hw5, hi5, hne⟩
          · simp at h
        · rename_i s4 hftfeq
          have hspec := ftf_spec env _ NS hw3 hi3
          rw [hftfeq] at hspec
          obtain ⟨hw4, hi4, -⟩ := hspec
          simp only [Option.some.injEq, Prod.mk.injEq] at h
          obtain ⟨rfl, rfl⟩ := h
          exact ⟨hw4, hi4, hne⟩
  · rename_i hnscal
    split at h
    · split at h
      · exact atf_sound fuel s op l r env res s' h hw hi hsat
      · simp only [Option.some.injEq, Prod.mk.injEq] at h
        obtain ⟨rfl, rfl⟩ := h
        exact ⟨hw, hi, by decide⟩
    · rename_i hop_eq
      rw [not_not] at hop_eq
      subst hop_eq
      have hkeyLR : valKeyEq (evalE env l) (evalE env r) := satB_eq_keyEq env l r hsat
      set G1 := getNode s l with hG1
      set G2 := getNode G1.2 r with hG2
      have hg1fst : G1.1 = l := getNode_fst s l
      have hg2fst : G2.1 = r := getNode_fst G1.2 r
      have hw1 : WfSt G1.2 := getNode_wf s l hw
      have hi1 : ImpliedSt env G1.2 := getNode_implied env s l hi
      have hw2 : WfSt G2.2 := getNode_wf G1.2 r hw1
      have hi2 : ImpliedSt env G2.2 := getNode_implied env G1.2 r hi1
      split at h
      · simp only [Option.some.injEq, Prod.mk.injEq] at h
        obtain ⟨rfl, rfl⟩ := h
        exact ⟨hw2, hi2, by decide⟩
      · rename_i hdiff
        set E1 := getEquivalenceSet G2.2 G1.1 with hE1
        set E2 := getEquivalenceSet E1.2 G2.1 with hE2
        obtain ⟨hwE1, hiE1, ⟨ms1, hms1, hmem1⟩, hremE1⟩ :=
          getEquivalenceSet_spec env G2.2 G1.1 hw2 hi2
        obtain ⟨hwE2, hiE2, ⟨ms2, hms2, hmem2⟩, hremE2⟩ :=
          getEquivalenceSet_spec env E1.2 G2.1 hwE1 hiE1
        split at h
        · simp only [Option.some.injEq, Prod.mk.injEq] at h
          obtain ⟨rfl, rfl⟩ := h
          exact ⟨hwE2, hiE2, by decide⟩
        · rename_i hneid
          split at h
          · rename_i lb rb hLB hRB
            split at h
            · rename_i lcb rcb hLC hRC
              have hmsE1 : alookupN E1.2.equivalence_map E1.1 = some ms1 := hms1
              have hmsE2 : alookupN E2.2.equivalence_map E2.1 = some ms2 := hms2
              have hidlt : E1.1 < E1.2.set_index := ges_id_lt G2.2 G1.1 hw2
              have hidlt2 : E1.1 < E2.2.set_index :=
                lt_of_lt_of_le hidlt (ges_set_index_le E1.2 G2.1)
              have hms1' : alookupN E2.2.equivalence_map E1.1 = some ms1 :=
                (ges_preserve E1.2 G2.1 E1.1 hidlt).1.trans hmsE1
              have hlbeq : lb = ms1 := alookupN_unique _ _ _ _ hLB hms1'
              have hrbeq : rb = ms2 := alookupN_unique _ _ _ _ hRB hmsE2
              have hmem1' : G1.1 ∈ lb := by rw [hlbeq]; exact hmem1
              have hmem2' : G2.1 ∈ rb := by rw [hrbeq]; exact hmem2
              have hvl : ∀ j ∈ lcb, holdsV j (evalE env l) := by
                intro j hj
                have hx := hiE2.bounds E1.1 lb lcb hLB hLC G1.1 hmem1' j hj
                rwa [hg1fst] at hx
              have hvr : ∀ j ∈ rcb, holdsV j (evalE env r) := by
                intro j hj
                have hx := hiE2.bounds E2.1 rb rcb hRB hRC G2.1 hmem2' j hj
                rwa [hg2fst] at hx
              have hvr' : ∀ j ∈ rcb, holdsV j (evalE env l) := fun j hj =>
                (holdsV_key j hkeyLR).mpr (hvr j hj)
              have hmne : (mergeConsts rcb lcb).1 ≠ true := fun hu =>
                mergeConsts_unsat rcb lcb hu (evalE env l) hvl hvr'
              have hmemKey : ∀ mm ∈ lb ++ rb,
                  valKeyEq (evalE env mm) (evalE env l) := by
                intro mm hmm
                rcases List.mem_append.mp hmm with hx | hx
                · have hk := hiE2.members E1.1 lb hLB mm hx G1.1 hmem1'
                  rwa [hg1fst] at hk
                · have hk := hiE2.members E2.1 rb hRB mm hx G2.1 hmem2'
                  rw [hg2fst] at hk
                  exact valKeyEq_trans hk (valKeyEq_symm hkeyLR)
              have hwS : WfSt { E2.2 with
                  equivalence_set_map := E2.2.equivalence_set_map.map
                    (fun p => if p.1 ∈ rb then (p.1, E1.1) else p),
                  equivalence_map := aupdateN E2.2.equivalence_map E1.1 (lb ++ rb),
                  constant_values := aupdateN E2.2.constant_values E1.1
                    (mergeConsts rcb lcb).2 } := by
                intro e0 id0 hid0
                have hid0' : alookupE (E2.2.equivalence_set_map.map
                    (fun p => if p.1 ∈ rb then (p.1, E1.1) else p)) e0 =
                    some id0 := hid0
                rcases alookupE_map_remap rb E1.1 E2.2.equivalence_set_map e0 id0
                    hid0' with ⟨hin, rfl⟩ | ⟨hnin, hlk⟩
                · refine ⟨hidlt2, lb ++ rb, ?_, List.mem_append.mpr (Or.inr hin)⟩
                  show alookupN (aupdateN E2.2.equivalence_map E1.1 (lb ++ rb))
                    E1.1 = some (lb ++ rb)
                  exact alookupN_aupdateN_self _ _ _ _ hLB
                · obtain ⟨hlt, ms0, hms0, hmm0⟩ := hwE2 e0 id0 hlk
                  refine ⟨hlt, ?_⟩
                  by_cases hide : id0 = E1.1
                  · refine ⟨lb ++ rb, ?_, ?_⟩
                    · show alookupN (aupdateN E2.2.equivalence_map E1.1 (lb ++ rb))
                        id0 = some (lb ++ rb)
                      rw [hide]
                      exact alookupN_aupdateN_self _ _ _ _ hLB
                    · have hms0eq : ms0 = lb := by
                        rw [hide] at hms0
                        exact alookupN_unique _ _ _ _ hms0 hLB
                      exact List.mem_append.mpr (Or.inl (hms0eq ▸ hmm0))
                  · refine ⟨ms0, ?_, hmm0⟩
                    show alookupN (aupdateN E2.2.equivalence_map E1.1 (lb ++ rb))
                      id0 = some ms0
                    rw [alookupN_aupdateN_ne _ _ _ _ hide]
                    exact hms0
              have hiS : ImpliedSt env { E2.2 with
                  equivalence_set_map := E2.2.equivalence_set_map.map
                    (fun p => if p.1 ∈ rb then (p.1, E1.1) else p),
                  equivalence_map := aupdateN E2.2.equivalence_map E1.1 (lb ++ rb),
                  constant_values := aupdateN E2.2.constant_values E1.1
                    (mergeConsts rcb lcb).2 } := by
                refine ⟨?_, ?_, ?_⟩
                · intro id0 ms0 cs0 hms0 hcs0 m0 hm0 i0 hi0
                  have hms0' : alookupN (aupdateN E2.2.equivalence_map E1.1
                      (lb ++ rb)) id0 = some ms0 := hms0
                  have hcs0' : alookupN (aupdateN E2.2.constant_values E1.1
                      (mergeConsts rcb lcb).2) id0 = some cs0 := hcs0
                  by_cases hide : id0 = E1.1
                  · subst hide
                    have hmseq : ms0 = lb ++ rb :=
                      alookupN_aupdateN_eq _ _ _ _ hms0'
                    have hcseq : cs0 = (mergeConsts rcb lcb).2 :=
                      alookupN_aupdateN_eq _ _ _ _ hcs0'
                    subst hmseq
                    subst hcseq
                    have hkm := hmemKey m0 hm0
                    rcases mergeConsts_mem rcb lcb i0 hi0 with hx | hx
                    · exact (holdsV_key i0 hkm).mpr (hvl i0 hx)
                    · exact (holdsV_key i0 hkm).mpr (hvr' i0 hx)
                  · rw [alookupN_aupdateN_ne _ _ _ _ hide] at hms0' hcs0'
                    exact hiE2.bounds id0 ms0 cs0 hms0' hcs0' m0 hm0 i0 hi0
                · intro id0 ms0 hms0 m0 hm0 m0' hm0'
                  have hms0' : alookupN (aupdateN E2.2.equivalence_map E1.1
                      (lb ++ rb)) id0 = some ms0 := hms0
                  by_cases hide : id0 = E1.1
                  · subst hide
                    have hmseq : ms0 = lb ++ rb :=
                      alookupN_aupdateN_eq _ _ _ _ hms0'
                    subst hmseq
                    exact valKeyEq_trans (hmemKey m0 hm0)
                      (valKeyEq_symm (hmemKey m0' hm0'))
                  · rw [alookupN_aupdateN_ne _ _ _ _ hide] at hms0'
                    exact hiE2.members id0 ms0 hms0' m0 hm0 m0' hm0'
                · exact hiE2.remaining
              split at h
              · rename_i hm1
                exact absurd hm1 hmne
              · simp only [Option.some.injEq, Prod.mk.injEq] at h
                obtain ⟨rfl, rfl⟩ := h
                exact ⟨hwS, hiS, by decide⟩
            all_goals simp at h
          all_goals simp at h

end DuckCore

namespace DuckCore

theorem addFilterInner_sound (fuel : Nat) (s : CState) (e : CExpr) (env : Env)
    (res : FilterResult) (s' : CState)
    (h : addFilterInner fuel s e = some (res, s'))
    (hw : WfSt s) (hi : ImpliedSt env s) (hsat : satB env e = true) :
    WfSt s' ∧ ImpliedSt env s' ∧ res ≠ FilterResult.UNSATISFIABLE := by
  simp only [addFilterInner] at h
  split at h
  · rename_i hfold
    split at h
    · rename_i hcond
      exfalso
      have hev : evalE defaultEnv e = evalE env e :=
        evalE_foldable_env e hfold defaultEnv env
      simp only [satB, Bool.and_eq_true, Bool.not_eq_true',
        decide_eq_true_eq] at hsat
      obtain ⟨hs1, hs2⟩ := hsat
      rw [hev] at hcond
      simp only [Bool.or_eq_true, decide_eq_true_eq] at hcond
      rcases hcond with hx | hx
      · rw [hs1] at hx
        exact Bool.noConfusion hx
      · exact hs2 hx
    · simp only [Option.some.injEq, Prod.mk.injEq] at h
      obtain ⟨rfl, rfl⟩ := h
      exact ⟨hw, hi, by decide⟩
  · rename_i hnfold
    split at h
    · rename_i inp lo hib li ui
      obtain ⟨hA, hB⟩ := satB_between env inp lo hib li ui hsat
      set G := getNode s inp with hGdef
      set ES := getEquivalenceSet G.2 G.1 with hESdef
      split at h
      · rename_i hfo
        split at h
        · simp at h
        · rename_i clo hclo
          generalize hOP1 : (if li = true then CmpOp.ge else CmpOp.gt) = op1 at h
          split at h
          · simp at h
          · rename_i lst hlst
            split at h
            · simp at h
            · rename_i chi hchi
              generalize hOP2 : (if ui = true then CmpOp.le else CmpOp.lt) = op2 at h
              split at h
              · simp at h
              · rename_i lst2 hlst2
                have hwG : WfSt G.2 := getNode_wf s inp hw
                have hiG : ImpliedSt env G.2 := getNode_implied env s inp hi
                obtain ⟨hwE, hiE, ⟨msE, hmsE, hmemE⟩, hremE⟩ :=
                  getEquivalenceSet_spec env G.2 G.1 hwG hiG
                have hgfst : G.1 = inp := getNode_fst s inp
                have hfoldlo : isFoldable lo = true ∧ clo = evalE defaultEnv lo := by
                  unfold evalScalar at hclo
                  by_cases hx : isFoldable lo = true
                  · rw [if_pos hx] at hclo
                    injection hclo with hclo
                    exact ⟨hx, hclo.symm⟩
                  · rw [if_neg hx] at hclo
                    exact Option.noConfusion hclo
                have hfoldhi : isFoldable hib = true ∧ chi = evalE defaultEnv hib := by
                  unfold evalScalar at hchi
                  by_cases hx : isFoldable hib = true
                  · rw [if_pos hx] at hchi
                    injection hchi with hchi
                    exact ⟨hx, hchi.symm⟩
                  · rw [if_neg hx] at hchi
                    exact Option.noConfusion hchi
                have hder1 : holdsV ⟨op1, clo⟩ (evalE env inp) := by
                  show cmp3 op1 (evalE env inp) clo = bTrue
                  rw [← hOP1, hfoldlo.2,
                    evalE_foldable_env lo hfoldlo.1 defaultEnv env]
                  by_cases hli : li = true
                  · rw [if_pos hli]
                    rw [show CmpOp.ge = flipCmp CmpOp.le from rfl, cmp3_flip]
                    rw [if_pos hli] at hA
                    exact hA
                  · rw [if_neg hli]
                    rw [show CmpOp.gt = flipCmp CmpOp.lt from rfl, cmp3_flip]
                    rw [if_neg hli] at hA
                    exact hA
                have hder2 : holdsV ⟨op2, chi⟩ (evalE env inp) := by
                  show cmp3 op2 (evalE env inp) chi = bTrue
                  rw [← hOP2, hfoldhi.2,
                    evalE_foldable_env hib hfoldhi.1 defaultEnv env]
                  exact hB
                have hlstL : ∀ j ∈ lst, holdsV j (evalE env inp) := by
                  intro j hj
                  have hx := hiE.bounds ES.1 msE lst hmsE hlst G.1 hmemE j hj
                  rwa [hgfst] at hx
                have hall1 : ∀ j ∈ (addConstantComparison lst ⟨op1, clo⟩).2,
                    holdsV j (evalE env inp) := by
                  intro j hj
                  rcases acc_mem lst _ j hj with hx | hx
                  · exact hlstL j hx
                  · rw [hx]
                    exact hder1
                have hlst2eq : lst2 = (addConstantComparison lst ⟨op1, clo⟩).2 := by
                  have hlst2' : alookupN (aupdateN ES.2.constant_values ES.1
                      (addConstantComparison lst ⟨op1, clo⟩).2) ES.1 =
                      some lst2 := hlst2
                  exact alookupN_aupdateN_eq _ _ _ _ hlst2'
                have hlst2L : ∀ j ∈ lst2, holdsV j (evalE env inp) := by
                  intro j hj
                  rw [hlst2eq] at hj
                  exact hall1 j hj
                have hne2 : (addConstantComparison lst2 ⟨op2, chi⟩).1 ≠
                    FilterResult.UNSATISFIABLE :=
                  fun hu => acc_unsat lst2 _ hu (evalE env inp) hlst2L hder2
                simp only [Option.some.injEq, Prod.mk.injEq] at h
                obtain ⟨rfl, rfl⟩ := h
                refine ⟨hwE, ?_, hne2⟩
                refine ImpliedSt_cv_rem env ({ ES.2 with
                    constant_values := aupdateN ES.2.constant_values ES.1
                      (addConstantComparison lst ⟨op1, clo⟩).2 })
                  ES.1 _ _ ?_ ?_ ?_
                · refine ImpliedSt_cv_rem env ES.2 ES.1 _ _ hiE ?_ hiE.remaining
                  intro ms hms m hm i0 hi0
                  rw [hmsE] at hms
                  injection hms with hms
                  subst hms
                  have hkey := hiE.members ES.1 msE hmsE m hm G.1 hmemE
                  rw [hgfst] at hkey
                  exact (holdsV_key i0 hkey).mpr (hall1 i0 hi0)
                · intro ms hms m hm i0 hi0
                  have hms2 : alookupN ES.2.equivalence_map ES.1 = some ms := hms
                  rw [hmsE] at hms2
                  injection hms2 with hms2
                  subst hms2
                  have hkey := hiE.members ES.1 msE hmsE m hm G.1 hmemE
                  rw [hgfst] at hkey
                  rcases acc_mem lst2 _ i0 hi0 with hx | hx
                  · exact (holdsV_key i0 hkey).mpr (hlst2L i0 hx)
                  · rw [hx]
                    exact (holdsV_key _ hkey).mpr hder2
                · exact hiE.remaining
      · simp only [Option.some.injEq, Prod.mk.injEq] at h
        obtain ⟨rfl, rfl⟩ := h
        exact ⟨hw, hi, by decide⟩
    · rename_i op lc rc
      exact abcf_sound fuel s op lc rc env res s' h hw hi hsat
    all_goals
      simp only [Option.some.injEq, Prod.mk.injEq] at h
      obtain ⟨rfl, rfl⟩ := h
      exact ⟨hw, hi, by decide⟩

theorem addFilter_sound (fuel : Nat) (s : CState) (e : CExpr) (env : Env)
    (res : FilterResult) (s' : CState)
    (h : addFilter fuel s e = some (res, s'))
    (hw : WfSt s) (hi : ImpliedSt env s) (hsat : satB env e = true) :
    WfSt s' ∧ ImpliedSt env s' ∧ res ≠ FilterResult.UNSATISFIABLE := by
  unfold addFilter at h
  rw [Option.map_eq_some'] at h
  obtain ⟨⟨r0, s0⟩, h0, hmap⟩ := h
  obtain ⟨hw0, hi0, hne0⟩ := addFilterInner_sound fuel s e env r0 s0 h0 hw hi hsat
  split at hmap
  · simp only [Prod.mk.injEq] at hmap
    obtain ⟨rfl, rfl⟩ := hmap
    exact ⟨hw0, ImpliedSt_rem_append env s0 e hi0 hsat, by decide⟩
  · simp only [Prod.mk.injEq] at hmap
    obtain ⟨rfl, rfl⟩ := hmap
    exact ⟨hw0, hi0, hne0⟩

theorem runFilters_sound : ∀ (es : List CExpr) (fuel : Nat) (s : CState)
    (env : Env) (res : FilterResult) (s' : CState),
    runFilters fuel es s = some (res, s') →
    WfSt s → ImpliedSt env s → (∀ e ∈ es, satB env e = true) →
    WfSt s' ∧ ImpliedSt env s' ∧ res ≠ FilterResult.UNSATISFIABLE := by
  intro es
  induction es with
  | nil =>
    intro fuel s env res s' h hw hi _
    simp only [runFilters, Option.some.injEq, Prod.mk.injEq] at h
    obtain ⟨rfl, rfl⟩ := h
    exact ⟨hw, hi, by decide⟩
  | cons e rest ih =>
    intro fuel s env res s' h hw hi hall
    simp only [runFilters] at h
    rw [Option.bind_eq_some] at h
    obtain ⟨⟨r0, s0⟩, h0, h1⟩ := h
    obtain ⟨hw0, hi0, hne0⟩ := addFilter_sound fuel s e env r0 s0 h0 hw hi
      (hall e (List.mem_cons_self _ _))
    cases r0 with
    | UNSATISFIABLE => exact absurd rfl hne0
    | SUCCESS =>
      exact ih fuel s0 env res s' h1 hw0 hi0
        (fun x hx => hall x (List.mem_cons_of_mem _ hx))
    | UNSUPPORTED =>
      exact ih fuel s0 env res s' h1 hw0 hi0
        (fun x hx => hall x (List.mem_cons_of_mem _ hx))

end DuckCore

namespace DuckCore

/-- **C2**: soundness of the `UNSATISFIABLE` verdict.  `AddFilter` stops the
sequence at the first `UNSATISFIABLE` report, so a sequence whose run ends with
that verdict is exactly the predicates added so far, including the one that
triggered the return; the theorem states that then no assignment of values to
the non-scalar expressions (column references, functions, opaque leaves)
satisfies every predicate of the sequence. -/
theorem addfilter_unsat_sound (fuel : Nat) (es : List CExpr)
    (h : (runFilters fuel es {}).map Prod.fst = some FilterResult.UNSATISFIABLE)
    (env : Env) : ¬ ∀ e ∈ es, satB env e = true := by
  intro hall
  rw [Option.map_eq_some'] at h
  obtain ⟨⟨r0, s0⟩, hrun, hfst⟩ := h
  have hwf0 : WfSt {} := fun e id hid => Option.noConfusion hid
  have him0 : ImpliedSt env {} :=
    ⟨fun id ms cs hms => Option.noConfusion hms,
     fun id ms hms => Option.noConfusion hms,
     fun f hf => absurd hf (List.not_mem_nil f)⟩
  obtain ⟨-, -, hne⟩ := runFilters_sound es fuel {} env r0 s0 hrun hwf0 him0 hall
  exact hne hfst

/-- Witness: `x = 5 AND x > 7` is reported `UNSATISFIABLE`, and indeed the
assignment `x ↦ 5` (like any other) cannot satisfy both predicates. -/
theorem addfilter_unsat_sound_witness :
    ¬ ∀ e ∈ [CExpr.cmp .eq (.colref 0) (.cst (iv 5)),
             CExpr.cmp .gt (.colref 0) (.cst (iv 7))],
      satB (fun _ => iv 5) e = true :=
  addfilter_unsat_sound 3 _ (by rfl) _

end DuckCore

namespace DuckCore

/-- The constants loop of one `GenerateFilters` entry
(`filter_combiner.cpp:108-125`): the non-bound comparisons in order, and the
last `>`/`>=` (lower) and `<`/`<=` (upper) bound, if any (a later match
overwrites `lower_index`/`upper_index`). -/
def gfScanConsts : List EVI → List EVI × Option EVI × Option EVI
  | [] => ([], none, none)
  | info :: rest =>
    let r := gfScanConsts rest
    if isGreaterThanOp info.comparison_type then
      (r.1, (match r.2.1 with | some x => some x | none => some info), r.2.2)
    else if isLessThanOp info.comparison_type then
      (r.1, r.2.1, (match r.2.2 with | some x => some x | none => some info))
    else
      (info :: r.1, r.2.1, r.2.2)

/-- The per-entry constant emissions of `GenerateFilters`: the non-bound
comparisons, then the lower/upper summary (a BETWEEN when both bounds exist,
otherwise a single comparison; `filter_combiner.cpp:126-146`). -/
def gfEntryEmits (cl : List EVI) (entry : CExpr) : List CExpr :=
  let r := gfScanConsts cl
  (r.1.map (fun info => CExpr.cmp info.comparison_type entry (.cst info.constant))) ++
  (match r.2.1, r.2.2 with
   | some lo, some up =>
     [CExpr.between entry (.cst lo.constant) (.cst up.constant)
       (decide (lo.comparison_type = .ge)) (decide (up.comparison_type = .le))]
   | some lo, none => [CExpr.cmp lo.comparison_type entry (.cst lo.constant)]
   | none, some up => [CExpr.cmp up.comparison_type entry (.cst up.constant)]
   | none, none => [])

/-- The entries loop of one equivalence set (`filter_combiner.cpp:100-147`):
for each entry, the pairwise equalities with the later entries, then its
constant emissions. -/
def gfEntryLoop (cl : List EVI) : List CExpr → List CExpr
  | [] => []
  | x :: rest =>
    (rest.map (fun y => CExpr.cmp .eq x y)) ++ gfEntryEmits cl x ++
      gfEntryLoop cl rest

/-- The equivalence-set loop of `GenerateFilters`; `none` models the
dereference of a failed `constant_values.find` (never reached in the
combiner's own state flow). -/
def gfSets (cv : List (Nat × List EVI)) : List (Nat × List CExpr) →
    Option (List CExpr)
  | [] => some []
  | (id, entries) :: rest =>
    match alookupN cv id with
    | none => none
    | some cl => (gfSets cv rest).map (fun tail => gfEntryLoop cl entries ++ tail)

/-- The state left behind by `GenerateFilters`: residual filters and all four
maps cleared (`remaining_filters.clear()` at the top,
`stored_expressions/equivalence_set_map/constant_values/equivalence_map.clear()`
at the bottom of `filter_combiner.cpp:88-152`); `set_index` is not reset. -/
def clearedState (s : CState) : CState :=
  { s with stored_expressions := [], equivalence_set_map := [],
           equivalence_map := [], constant_values := [],
           remaining_filters := [] }

/-- `FilterCombiner::GenerateFilters` (`filter_combiner.cpp:88-152`): the
emitted predicates, in callback order, together with the cleared state. -/
def generateFilters (s : CState) : Option (List CExpr × CState) :=
  (gfSets s.constant_values s.equivalence_map).map
    (fun sets => (s.remaining_filters ++ sets, clearedState s))

/-- `FilterCombiner::HasFilters` (`filter_combiner.cpp:154-158`): run
`GenerateFilters` with a callback that only records whether anything was
emitted — including its state clearing. -/
def hasFilters (s : CState) : Option (Bool × CState) :=
  (generateFilters s).map (fun p => (!p.1.isEmpty, p.2))

/-- Erase the first entry with the given key (`unordered_map::erase` of a
found iterator). -/
def eraseIdN {α : Type} : List (Nat × α) → Nat → List (Nat × α)
  | [], _ => []
  | (k, v) :: rest, id => if k = id then rest else (k, v) :: eraseIdN rest id

/-- The constant-pushdown loop of `GenerateTableScanFilters`
(`filter_combiner.cpp:265-299`): for each non-empty constant list whose first
bound is an `=`/`<`/`<=`/`>`/`>=` on a numeric-or-VARCHAR constant and whose
equivalence set is a single bound column reference, push every bound of the
list as a `TableFilter` and erase the set from the equivalence map; a row-id
column breaks out of the loop.  `none` models the dereference of a failed
`equivalence_map.find`. -/
def gtsf1 (cids : Nat → Nat) : List (Nat × List EVI) → List (Nat × List CExpr) →
    Option (List TableFilter × List (Nat × List CExpr))
  | [], em => some ([], em)
  | (id, cl) :: rest, em =>
    match cl with
    | [] => gtsf1 cids rest em
    | c0 :: _ =>
      if (c0.comparison_type = .eq ∨ isGreaterThanOp c0.comparison_type = true ∨
          isLessThanOp c0.comparison_type = true) ∧
          c0.constant.vtype.isNumericOrVarchar = true then
        match alookupN em id with
        | none => none
        | some entries =>
          match entries with
          | [CExpr.colref c] =>
            if cids c = rowIdSentinel then some ([], em)
            else
              (gtsf1 cids rest (eraseIdN em id)).map
                (fun p => (cl.map
                  (fun info => ⟨info.constant, info.comparison_type, c⟩) ++ p.1,
                  p.2))
          | _ => gtsf1 cids rest em
      else gtsf1 cids rest em

/-- `FilterCombiner::GenerateTableScanFilters` (`filter_combiner.cpp:262-418`):
the constant-pushdown loop over `constant_values`, then the LIKE/`IN` loop
over `remaining_filters` (`scanRemaining`). -/
def generateTableScanFilters (cids : Nat → Nat) (s : CState) :
    Option (List TableFilter × CState) :=
  (gtsf1 cids s.constant_values s.equivalence_map).bind
    (fun p1 =>
      some (p1.1 ++ (scanRemaining cids s.remaining_filters).1,
        { s with equivalence_map := p1.2,
                 remaining_filters := (scanRemaining cids s.remaining_filters).2 }))

end DuckCore

namespace DuckCore

/-- **C9**: `HasFilters` is not a pure observer — it runs `GenerateFilters`
with a counting callback, so after any successful `HasFilters` call the
residual filters, the stored expressions, both equivalence maps and the
constant values are all cleared, a subsequent `GenerateFilters` emits nothing
(returning the state unchanged), and a subsequent `GenerateTableScanFilters`
produces no pushdown filter and leaves the state unchanged. -/
theorem hasfilters_clears_and_silences (s : CState) (b : Bool) (s2 : CState)
    (h : hasFilters s = some (b, s2)) (cids : Nat → Nat) :
    s2.remaining_filters = [] ∧ s2.stored_expressions = [] ∧
    s2.equivalence_set_map = [] ∧ s2.equivalence_map = [] ∧
    s2.constant_values = [] ∧
    generateFilters s2 = some ([], s2) ∧
    generateTableScanFilters cids s2 = some ([], s2) := by
  unfold hasFilters at h
  rw [Option.map_eq_some'] at h
  obtain ⟨⟨out, s2'⟩, hgen, hpair⟩ := h
  unfold generateFilters at hgen
  rw [Option.map_eq_some'] at hgen
  obtain ⟨sets, hsets, hpair2⟩ := hgen
  simp only [Prod.mk.injEq] at hpair hpair2
  obtain ⟨-, rfl⟩ := hpair
  obtain ⟨-, rfl⟩ := hpair2
  exact ⟨rfl, rfl, rfl, rfl, rfl, rfl, rfl⟩

/-- Witness for C9: a combiner holding one equivalence set with one constant
bound and one residual filter answers `HasFilters` with `true` and comes out
fully cleared and silent. -/
theorem hasfilters_clears_and_silences_witness :
    (⟨1, [], [], [], [], []⟩ : CState).remaining_filters = [] ∧
    (⟨1, [], [], [], [], []⟩ : CState).stored_expressions = [] ∧
    (⟨1, [], [], [], [], []⟩ : CState).equivalence_set_map = [] ∧
    (⟨1, [], [], [], [], []⟩ : CState).equivalence_map = [] ∧
    (⟨1, [], [], [], [], []⟩ : CState).constant_values = [] ∧
    generateFilters ⟨1, [], [], [], [], []⟩ =
      some ([], ⟨1, [], [], [], [], []⟩) ∧
    generateTableScanFilters (fun _ => 0) ⟨1, [], [], [], [], []⟩ =
      some ([], ⟨1, [], [], [], [], []⟩) :=
  hasfilters_clears_and_silences
    ⟨1, [CExpr.colref 0], [(CExpr.colref 0, 0)], [(0, [CExpr.colref 0])],
     [(0, [⟨CmpOp.eq, iv 5⟩])], [CExpr.cmp .gt (.colref 1) (.cst (iv 3))]⟩
    true ⟨1, [], [], [], [], []⟩ (by rfl) (fun _ => 0)

end DuckCore
